import Mathlib

/-!
Verification development for the schedule-coordination app.

The TypeScript source is shallowly embedded in Lean:
  * JavaScript objects used as string-keyed records (`Record<string, T>`,
    the `summary` accumulator, `Object.fromEntries`) are modelled as
    association lists `List (String × T)` whose insertion respects the JS
    semantics: inserting an existing key overwrites the value in place,
    inserting a fresh key appends at the end.  JS object keys are unique,
    which appears as `Nodup` hypotheses on key lists where it matters.
  * JS strings are Lean `String`s; where character-level reasoning is
    needed (the hash-fragment router) we work on `String.data : List Char`.
  * The nullable TS type `Availability = 'available'|'maybe'|'unavailable'|null`
    is `Option Availability` with `none` for `null`; a key that is absent
    from a record altogether is modelled by absence from the association
    list (so a lookup yields `none : Option (Option Availability)`).
  * `async` functions touching the remote store are modelled as pure
    functions taking the outcome of each awaited store call as an explicit
    `Except StoreErr _` argument and returning the new client state;
    `throw`/`catch` control flow becomes the corresponding case analysis.
-/

/-- The three concrete availability values (`'available' | 'maybe' | 'unavailable'`
from `src/types/index.ts`; the `null` member of the TS union is represented by
`Option.none` at use sites). -/
inductive Availability where
  | available
  | maybe
  | unavailable
deriving DecidableEq, Repr

/-- `DateCandidate` from `src/types/index.ts`. -/
structure DateCandidate where
  id : String
  datetime : String
deriving DecidableEq, Repr

/-- A participant's response map `Record<string, Availability>`: an association
list from date-candidate id to a (nullable) availability. -/
abbrev AvailMap := List (String × Option Availability)

/-- `ParticipantResponse` from `src/types/index.ts`. -/
structure ParticipantResponse where
  id : String
  name : String
  comment : String
  responses : AvailMap
  createdAt : String
deriving DecidableEq, Repr

/-- `ScheduleEvent` from `src/types/index.ts` (plus the `organizerEmail` field
that `fetchEvent` in `src/context/AppContext.tsx` actually stores on the
assembled object). -/
structure ScheduleEvent where
  id : String
  title : String
  memo : String
  organizerEmail : Option String := none
  dateCandidates : List DateCandidate
  participants : List ParticipantResponse
  createdAt : String
deriving DecidableEq, Repr

/-! ### Association lists with JavaScript object semantics -/

/-- Lookup: `m[k]`, `undefined` becoming `none`. -/
def lookupAL {α : Type} (m : List (String × α)) (k : String) : Option α :=
  (m.find? (fun p => p.1 == k)).map (fun p => p.2)

/-- `m[k] = v` on a JS object: overwrite in place if the key exists,
append otherwise. -/
def upsertAL {α : Type} (m : List (String × α)) (k : String) (v : α) :
    List (String × α) :=
  if m.any (fun p => p.1 == k) then
    m.map (fun p => if p.1 == k then (k, v) else p)
  else
    m ++ [(k, v)]

/-- In-place update of the value at key `k`, a no-op when the key is absent
(mirrors the `if (result[dateId]) { ... }` guard in `summary`). -/
def updateAL {α : Type} (m : List (String × α)) (k : String) (f : α → α) :
    List (String × α) :=
  m.map (fun p => if p.1 == k then (p.1, f p.2) else p)

/-- Key deletion (`delete m[k]`). -/
def eraseAL {α : Type} (m : List (String × α)) (k : String) :
    List (String × α) :=
  m.filter (fun p => ¬ p.1 == k)

/-! ### Availability Tally Engine (`summary` and `bestDateIds` in
`src/components/EventPage.tsx`) -/

/-- One cell of the `summary` record:
`{ available: number; maybe: number; unavailable: number; score: number }`. -/
structure Tally where
  available : Nat
  maybe : Nat
  unavailable : Nat
  score : Nat
deriving DecidableEq, Repr

def zeroTally : Tally := ⟨0, 0, 0, 0⟩

/-- The body of the inner loop of `summary`: bump the counts of one tally cell
according to one response entry's availability value.  A `null` availability
matches none of the three `===` tests and leaves the cell unchanged. -/
def bumpTally (t : Tally) (a : Option Availability) : Tally :=
  match a with
  | some .available => { t with available := t.available + 1, score := t.score + 2 }
  | some .maybe => { t with maybe := t.maybe + 1, score := t.score + 1 }
  | some .unavailable => { t with unavailable := t.unavailable + 1 }
  | none => t

/-- `summary` from `src/components/EventPage.tsx` (lines 64–90): initialise a
record with a zero cell per date candidate, then fold every entry of every
participant's response map into it, skipping entries whose key is not in the
record. -/
def summary (ev : ScheduleEvent) : List (String × Tally) :=
  ev.participants.foldl
    (fun r p =>
      p.responses.foldl (fun r e => updateAL r e.1 (fun t => bumpTally t e.2)) r)
    (ev.dateCandidates.foldl (fun r dc => upsertAL r dc.id zeroTally) [])

/-- The maximal per-candidate score of an event, as computed by
`Math.max(...Object.values(summary).map(s => s.score))` inside `bestDateIds`
(0 when there are no candidates, where the source gets `-Infinity`; the
empty case is handled separately in `bestDateIds` below). -/
def maxScoreOf (ev : ScheduleEvent) : Nat :=
  ((summary ev).map (fun p => p.2.score)).foldl Nat.max 0

/-- `bestDateIds` from `src/components/EventPage.tsx` (lines 92–101).
`Math.max(...[])` is `-Infinity`, which fails the `=== 0` test and then
matches no score in the (empty) record, so the empty-summary case is split
out explicitly and returns `[]` exactly as the source does. -/
def bestDateIds (ev : ScheduleEvent) : List String :=
  if ev.participants.length = 0 then []
  else if (summary ev).isEmpty then []
  else if maxScoreOf ev = 0 then []
  else ((summary ev).filter (fun p => p.2.score == maxScoreOf ev)).map (fun p => p.1)

/-- The number of participants whose response map assigns availability `a`
to candidate `k`. -/
def countResp (ps : List ParticipantResponse) (k : String) (a : Availability) : Nat :=
  ps.countP (fun p => lookupAL p.responses k == some (some a))

/-! ### Association-list lemmas -/

theorem lookupAL_cons {α : Type} (p : String × α) (m : List (String × α)) (k : String) :
    lookupAL (p :: m) k = if p.1 == k then some p.2 else lookupAL m k := by
  by_cases h : p.1 == k <;> simp [lookupAL, List.find?_cons, h]

theorem lookupAL_isSome {α : Type} (m : List (String × α)) (k : String) :
    (lookupAL m k).isSome = m.any (fun p => p.1 == k) := by
  induction m with
  | nil => rfl
  | cons p m ih =>
    rw [lookupAL_cons]
    by_cases h : p.1 = k <;> simp [h, ih]

theorem lookupAL_append {α : Type} (m₁ m₂ : List (String × α)) (k : String) :
    lookupAL (m₁ ++ m₂) k =
      match lookupAL m₁ k with
      | some v => some v
      | none => lookupAL m₂ k := by
  induction m₁ with
  | nil => simp [lookupAL]
  | cons p m ih =>
    rw [List.cons_append, lookupAL_cons, lookupAL_cons]
    by_cases h : p.1 = k <;> simp [h, ih]

theorem updateAL_cons {α : Type} (p : String × α) (m : List (String × α))
    (k : String) (f : α → α) :
    updateAL (p :: m) k f =
      (if p.1 == k then (p.1, f p.2) else p) :: updateAL m k f := rfl

theorem lookupAL_updateAL_self {α : Type} (m : List (String × α)) (k : String) (f : α → α) :
    lookupAL (updateAL m k f) k = (lookupAL m k).map f := by
  induction m with
  | nil => rfl
  | cons p m ih =>
    rw [updateAL_cons, lookupAL_cons, lookupAL_cons]
    by_cases h : p.1 = k <;> simp [h, ih]

theorem lookupAL_updateAL_ne {α : Type} (m : List (String × α)) (k k' : String)
    (f : α → α) (h : k' ≠ k) :
    lookupAL (updateAL m k f) k' = lookupAL m k' := by
  have hkk' : ¬ k = k' := fun hk => h hk.symm
  induction m with
  | nil => rfl
  | cons p m ih =>
    rw [updateAL_cons, lookupAL_cons, lookupAL_cons]
    by_cases hp : p.1 = k
    · have hp' : ¬ p.1 = k' := by rw [hp]; exact hkk'
      simp [hp, hp', hkk', ih]
    · by_cases hq : p.1 = k' <;> simp [hp, hq, h, ih]

theorem keys_updateAL {α : Type} (m : List (String × α)) (k : String) (f : α → α) :
    (updateAL m k f).map (fun p => p.1) = m.map (fun p => p.1) := by
  unfold updateAL
  rw [List.map_map]
  apply List.map_congr_left
  intro p _
  by_cases h : p.1 = k <;> simp [h]

theorem upsertAL_of_any {α : Type} (m : List (String × α)) (k : String) (v : α)
    (h : m.any (fun p => p.1 == k) = true) :
    upsertAL m k v = m.map (fun p => if p.1 == k then (k, v) else p) := by
  simp [upsertAL, h]

theorem upsertAL_of_not_any {α : Type} (m : List (String × α)) (k : String) (v : α)
    (h : m.any (fun p => p.1 == k) = false) :
    upsertAL m k v = m ++ [(k, v)] := by
  simp [upsertAL, h]

theorem lookupAL_map_replace {α : Type} (m : List (String × α)) (k k' : String) (v : α) :
    lookupAL (m.map (fun p => if p.1 == k then (k, v) else p)) k' =
      if k' = k then (lookupAL m k).map (fun _ => v) else lookupAL m k' := by
  induction m with
  | nil => by_cases h : k' = k <;> simp [lookupAL, h]
  | cons p m ih =>
    rw [List.map_cons]
    cases hb : p.1 == k with
    | true =>
      have hpk : p.1 = k := by simpa using hb
      by_cases hq : k' = k
      · simp [hb, lookupAL_cons, hq, hpk]
      · have hkk' : ¬ k = k' := fun hh => hq hh.symm
        simp only [hb, if_true, lookupAL_cons, beq_iff_eq, hkk', if_false, if_neg hq]
        have hp' : ¬ p.1 = k' := by rw [hpk]; exact hkk'
        simp only [hp', if_false]
        simpa [hq] using ih
    | false =>
      have hpk : ¬ p.1 = k := by simpa using hb
      simp only [hb, if_false, Bool.false_eq_true, lookupAL_cons]
      by_cases hq : k' = k
      · have hp' : ¬ p.1 = k' := by rw [hq]; exact hpk
        simp only [beq_iff_eq, hp', if_false, if_pos hq, lookupAL_cons, hpk]
        simpa [hq] using ih
      · by_cases hr : p.1 = k'
        · simp [lookupAL_cons, hq, hr]
        · simp only [beq_iff_eq, hr, if_false, if_neg hq, lookupAL_cons]
          simpa [hq] using ih

theorem lookupAL_upsertAL_self {α : Type} (m : List (String × α)) (k : String) (v : α) :
    lookupAL (upsertAL m k v) k = some v := by
  cases hm : m.any (fun p => p.1 == k) with
  | true =>
    rw [upsertAL_of_any m k v hm, lookupAL_map_replace, if_pos rfl]
    have hs : (lookupAL m k).isSome = true := by rw [lookupAL_isSome, hm]
    obtain ⟨w, hw⟩ := Option.isSome_iff_exists.mp hs
    simp [hw]
  | false =>
    rw [upsertAL_of_not_any m k v hm, lookupAL_append]
    have hs : (lookupAL m k).isSome = false := by rw [lookupAL_isSome, hm]
    have hn : lookupAL m k = none := by
      cases hl : lookupAL m k
      · rfl
      · rw [hl] at hs; cases hs
    simp [hn, lookupAL_cons]

theorem lookupAL_upsertAL_ne {α : Type} (m : List (String × α)) (k k' : String) (v : α)
    (h : k' ≠ k) :
    lookupAL (upsertAL m k v) k' = lookupAL m k' := by
  cases hm : m.any (fun p => p.1 == k) with
  | true => rw [upsertAL_of_any m k v hm, lookupAL_map_replace, if_neg h]
  | false =>
    rw [upsertAL_of_not_any m k v hm, lookupAL_append]
    have hkk' : ¬ k = k' := fun hk => h hk.symm
    have h1 : lookupAL [(k, v)] k' = none := by
      simp [lookupAL_cons, hkk', lookupAL]
    rw [h1]
    cases lookupAL m k' <;> rfl

theorem keys_upsertAL_of_any {α : Type} (m : List (String × α)) (k : String) (v : α)
    (h : m.any (fun p => p.1 == k) = true) :
    (upsertAL m k v).map (fun p => p.1) = m.map (fun p => p.1) := by
  rw [upsertAL_of_any m k v h, List.map_map]
  apply List.map_congr_left
  intro p _
  by_cases hp : p.1 = k <;> simp [hp]

theorem nodupKeys_upsertAL {α : Type} (m : List (String × α)) (k : String) (v : α)
    (h : (m.map (fun p => p.1)).Nodup) :
    ((upsertAL m k v).map (fun p => p.1)).Nodup := by
  cases hm : m.any (fun p => p.1 == k) with
  | true => rwa [keys_upsertAL_of_any m k v hm]
  | false =>
    rw [upsertAL_of_not_any m k v hm, List.map_append]
    have hk : k ∉ m.map (fun p => p.1) := by
      intro hmem
      obtain ⟨p, hp, hpk⟩ := List.mem_map.mp hmem
      have ht : m.any (fun p => p.1 == k) = true :=
        List.any_eq_true.mpr ⟨p, hp, by simp [hpk]⟩
      rw [ht] at hm
      cases hm
    simp [List.nodup_append, h, hk]

theorem lookupAL_of_mem {α : Type} (m : List (String × α)) (k : String) (v : α)
    (hnd : (m.map (fun p => p.1)).Nodup) (hmem : (k, v) ∈ m) :
    lookupAL m k = some v := by
  induction m with
  | nil => cases hmem
  | cons p m ih =>
    rw [List.map_cons, List.nodup_cons] at hnd
    rw [lookupAL_cons]
    rcases List.mem_cons.mp hmem with heq | hmem'
    · simp [← heq]
    · have hp : ¬ p.1 = k := by
        intro hpk
        exact hnd.1 (List.mem_map.mpr ⟨(k, v), hmem', by simpa using hpk.symm⟩)
      simp [hp, ih hnd.2 hmem']

theorem mem_of_lookupAL {α : Type} (m : List (String × α)) (k : String) (v : α)
    (h : lookupAL m k = some v) : (k, v) ∈ m := by
  induction m with
  | nil => cases h
  | cons p m ih =>
    rw [lookupAL_cons] at h
    by_cases hp : p.1 = k
    · simp [hp] at h
      have : p = (k, v) := by
        cases p
        simp_all
      simp [this]
    · simp [hp] at h
      exact List.mem_cons_of_mem _ (ih h)

theorem mem_upsertAL {α : Type} {m : List (String × α)} {k : String} {v : α}
    {p : String × α} (hp : p ∈ upsertAL m k v) : p = (k, v) ∨ p ∈ m := by
  unfold upsertAL at hp
  by_cases hm : m.any (fun q => q.1 == k)
  · rw [if_pos hm] at hp
    obtain ⟨q, hq, hpq⟩ := List.mem_map.mp hp
    by_cases h1 : q.1 = k
    · left
      simp [h1] at hpq
      exact hpq.symm
    · right
      simp [h1] at hpq
      rwa [← hpq]
  · rw [if_neg hm] at hp
    rcases List.mem_append.mp hp with h | h
    · right; exact h
    · left; simpa using h

/-! ### Characterising `summary` -/

/-- Looking up the record initialised with one all-zero cell per candidate. -/
theorem lookupAL_foldl_upsert_zero (cands : List DateCandidate)
    (m : List (String × Tally)) (k : String) :
    lookupAL (cands.foldl (fun r dc => upsertAL r dc.id zeroTally) m) k =
      if cands.any (fun dc => dc.id == k) then some zeroTally else lookupAL m k := by
  induction cands generalizing m with
  | nil => simp
  | cons dc cands ih =>
    rw [List.foldl_cons, ih]
    by_cases hd : dc.id = k
    · by_cases hc : cands.any (fun dc => dc.id == k) <;>
        simp [hd, hc, lookupAL_upsertAL_self]
    · by_cases hc : cands.any (fun dc => dc.id == k) <;>
        simp [hd, hc, lookupAL_upsertAL_ne _ _ _ _ (fun hk => hd hk.symm)]

theorem nodupKeys_foldl_upsert (cands : List DateCandidate)
    (m : List (String × Tally)) (h : (m.map (fun p => p.1)).Nodup) :
    ((cands.foldl (fun r dc => upsertAL r dc.id zeroTally) m).map (fun p => p.1)).Nodup := by
  induction cands generalizing m with
  | nil => simpa
  | cons dc cands ih => exact ih _ (nodupKeys_upsertAL _ _ _ h)

theorem values_foldl_upsert_zero (cands : List DateCandidate)
    (m : List (String × Tally)) (h : ∀ p ∈ m, p.2 = zeroTally) :
    ∀ p ∈ cands.foldl (fun r dc => upsertAL r dc.id zeroTally) m, p.2 = zeroTally := by
  induction cands generalizing m with
  | nil => exact h
  | cons dc cands ih =>
    apply ih
    intro p hp
    rcases mem_upsertAL hp with heq | hmem
    · rw [heq]
    · exact h p hmem

/-- Folding one participant's response entries into the record changes only
the value at the entry keys, by `bumpTally`, via a pointwise fold. -/
theorem lookupAL_entries_fold (es : AvailMap) (m : List (String × Tally)) (k : String) :
    lookupAL (es.foldl (fun r e => updateAL r e.1 (fun t => bumpTally t e.2)) m) k =
      (lookupAL m k).map
        (fun t => es.foldl (fun t e => if e.1 = k then bumpTally t e.2 else t) t) := by
  induction es generalizing m with
  | nil => cases h : lookupAL m k <;> simp [h]
  | cons e es ih =>
    rw [List.foldl_cons, ih]
    by_cases he : e.1 = k
    · subst he
      rw [lookupAL_updateAL_self]
      cases lookupAL m e.1 <;> simp
    · rw [lookupAL_updateAL_ne _ _ _ _ (fun hk => he hk.symm)]
      cases lookupAL m k <;> simp [he]

/-- The pointwise fold is the identity when no entry key matches. -/
theorem entries_fold_id (es : AvailMap) (k : String) (t : Tally)
    (h : ∀ e ∈ es, e.1 ≠ k) :
    es.foldl (fun t e => if e.1 = k then bumpTally t e.2 else t) t = t := by
  induction es generalizing t with
  | nil => rfl
  | cons e es ih =>
    rw [List.foldl_cons, if_neg (h e (List.mem_cons_self e es))]
    exact ih _ (fun e' he' => h e' (List.mem_cons_of_mem _ he'))

/-- With unique entry keys (JS object semantics), the pointwise fold is a
single `bumpTally` at the looked-up value. -/
theorem entries_fold_eq_lookup (es : AvailMap) (k : String) (t : Tally)
    (hnd : (es.map (fun e => e.1)).Nodup) :
    es.foldl (fun t e => if e.1 = k then bumpTally t e.2 else t) t =
      match lookupAL es k with
      | some a => bumpTally t a
      | none => t := by
  induction es generalizing t with
  | nil => rfl
  | cons e es ih =>
    rw [List.map_cons, List.nodup_cons] at hnd
    rw [List.foldl_cons, lookupAL_cons]
    by_cases he : e.1 = k
    · rw [if_pos he]
      have hk : ∀ e' ∈ es, e'.1 ≠ k := by
        intro e' he' hk
        exact hnd.1 (List.mem_map.mpr ⟨e', he', by rw [hk, ← he]⟩)
      rw [entries_fold_id es k _ hk]
      simp [he]
    · rw [if_neg he]
      simp only [beq_iff_eq, he, if_false]
      exact ih _ hnd.2

/-- Folding a list of participants over the record: the cell at `k` accumulates
exactly the per-availability counts of the participants' looked-up values. -/
theorem lookupAL_participants_fold (ps : List ParticipantResponse)
    (m : List (String × Tally)) (k : String) (t : Tally)
    (hp : ∀ p ∈ ps, (p.responses.map (fun e => e.1)).Nodup)
    (hm : lookupAL m k = some t) :
    lookupAL
      (ps.foldl
        (fun r p =>
          p.responses.foldl (fun r e => updateAL r e.1 (fun t => bumpTally t e.2)) r)
        m) k
      = some { available := t.available + countResp ps k .available,
               maybe := t.maybe + countResp ps k .maybe,
               unavailable := t.unavailable + countResp ps k .unavailable,
               score := t.score + 2 * countResp ps k .available + countResp ps k .maybe } := by
  induction ps generalizing m t with
  | nil => simpa [countResp] using hm
  | cons p ps ih =>
    rw [List.foldl_cons]
    cases hl : lookupAL p.responses k with
    | none =>
      have h1 : lookupAL
          (p.responses.foldl (fun r e => updateAL r e.1 (fun t => bumpTally t e.2)) m) k
          = some t := by
        rw [lookupAL_entries_fold, hm, Option.map_some',
          entries_fold_eq_lookup _ _ _ (hp p (List.mem_cons_self p ps)), hl]
      rw [ih _ _ (fun q hq => hp q (List.mem_cons_of_mem _ hq)) h1]
      simp [countResp, List.countP_cons, hl]
    | some a =>
      have h1 : lookupAL
          (p.responses.foldl (fun r e => updateAL r e.1 (fun t => bumpTally t e.2)) m) k
          = some (bumpTally t a) := by
        rw [lookupAL_entries_fold, hm, Option.map_some',
          entries_fold_eq_lookup _ _ _ (hp p (List.mem_cons_self p ps)), hl]
      rw [ih _ _ (fun q hq => hp q (List.mem_cons_of_mem _ hq)) h1]
      cases a with
      | none => simp [countResp, List.countP_cons, hl, bumpTally]
      | some av =>
        cases av <;>
          simp [countResp, List.countP_cons, hl, bumpTally, Tally.mk.injEq] <;>
          omega

/-- A cell absent from the record stays absent through the participants fold. -/
theorem lookupAL_participants_fold_none (ps : List ParticipantResponse)
    (m : List (String × Tally)) (k : String)
    (hm : lookupAL m k = none) :
    lookupAL
      (ps.foldl
        (fun r p =>
          p.responses.foldl (fun r e => updateAL r e.1 (fun t => bumpTally t e.2)) r)
        m) k = none := by
  induction ps generalizing m with
  | nil => exact hm
  | cons p ps ih =>
    rw [List.foldl_cons]
    apply ih
    rw [lookupAL_entries_fold, hm]
    rfl

/-- The central description of `summary`: the cell of every candidate id holds
the three per-availability counts of the participants and the weighted score
`2·available + 1·maybe + 0·unavailable`; other keys have no cell. -/
theorem summary_lookupAL (ev : ScheduleEvent) (k : String)
    (hp : ∀ p ∈ ev.participants, (p.responses.map (fun e => e.1)).Nodup) :
    lookupAL (summary ev) k =
      if ev.dateCandidates.any (fun dc => dc.id == k) then
        some { available := countResp ev.participants k .available,
               maybe := countResp ev.participants k .maybe,
               unavailable := countResp ev.participants k .unavailable,
               score := 2 * countResp ev.participants k .available
                        + countResp ev.participants k .maybe }
      else none := by
  unfold summary
  cases hc : ev.dateCandidates.any (fun dc => dc.id == k) with
  | true =>
    have hinit : lookupAL
        (ev.dateCandidates.foldl (fun r dc => upsertAL r dc.id zeroTally) []) k
        = some zeroTally := by
      rw [lookupAL_foldl_upsert_zero, if_pos hc]
    rw [lookupAL_participants_fold _ _ _ _ hp hinit]
    simp [zeroTally]
  | false =>
    have hinit : lookupAL
        (ev.dateCandidates.foldl (fun r dc => upsertAL r dc.id zeroTally) []) k
        = none := by
      rw [lookupAL_foldl_upsert_zero, hc]
      simp [lookupAL]
    rw [lookupAL_participants_fold_none _ _ _ hinit]
    simp

theorem keys_entries_fold (es : AvailMap) (m : List (String × Tally)) :
    (es.foldl (fun r e => updateAL r e.1 (fun t => bumpTally t e.2)) m).map (fun p => p.1)
      = m.map (fun p => p.1) := by
  induction es generalizing m with
  | nil => rfl
  | cons e es ih => rw [List.foldl_cons, ih, keys_updateAL]

theorem keys_participants_fold (ps : List ParticipantResponse)
    (m : List (String × Tally)) :
    (ps.foldl
      (fun r p =>
        p.responses.foldl (fun r e => updateAL r e.1 (fun t => bumpTally t e.2)) r)
      m).map (fun p => p.1)
      = m.map (fun p => p.1) := by
  induction ps generalizing m with
  | nil => rfl
  | cons p ps ih => rw [List.foldl_cons, ih, keys_entries_fold]

theorem nodupKeys_summary (ev : ScheduleEvent) :
    ((summary ev).map (fun p => p.1)).Nodup := by
  unfold summary
  rw [keys_participants_fold]
  exact nodupKeys_foldl_upsert ev.dateCandidates [] (by simp)

/-! ### Concrete events (the spec's "Team Sync" scenarios) -/

def aliceP : ParticipantResponse :=
  { id := "p1", name := "Alice", comment := "",
    responses := [("A", some .available), ("B", some .maybe)], createdAt := "t1" }

def bobP : ParticipantResponse :=
  { id := "p2", name := "Bob", comment := "",
    responses := [("A", some .maybe), ("B", some .unavailable)], createdAt := "t2" }

def evTeamSync : ScheduleEvent :=
  { id := "e1", title := "Team Sync", memo := "", organizerEmail := none,
    dateCandidates := [⟨"A", "Mon 10am"⟩, ⟨"B", "Tue 2pm"⟩],
    participants := [aliceP, bobP],
    createdAt := "t0" }

/-- "Team Sync" after participant "Cara" (A: unavailable, B: available) joins. -/
def evTeamSync3 : ScheduleEvent :=
  { evTeamSync with
    participants := evTeamSync.participants ++
      [ { id := "p3", name := "Cara", comment := "",
          responses := [("A", some .unavailable), ("B", some .available)],
          createdAt := "t3" } ] }

/-- C1: for every event, the tally gives every date candidate — including ones
appearing in no response map — an `available`, `maybe` and `unavailable` count
equal to the number of participants whose response map assigns that candidate
that value, and a score `2·available + 1·maybe + 0·unavailable`; keys outside
the candidate list get no cell at all, so they contribute to no count and no
score.  (The `Nodup` hypothesis is the JS guarantee that one object cannot
hold two entries for the same key.) -/
theorem C1_tally_counts (ev : ScheduleEvent)
    (hp : ∀ p ∈ ev.participants, (p.responses.map (fun e => e.1)).Nodup) :
    (∀ dc ∈ ev.dateCandidates,
      lookupAL (summary ev) dc.id =
        some { available := countResp ev.participants dc.id .available,
               maybe := countResp ev.participants dc.id .maybe,
               unavailable := countResp ev.participants dc.id .unavailable,
               score := 2 * countResp ev.participants dc.id .available
                        + countResp ev.participants dc.id .maybe }) ∧
    (∀ k, (∀ dc ∈ ev.dateCandidates, dc.id ≠ k) →
      lookupAL (summary ev) k = none) := by
  constructor
  · intro dc hdc
    rw [summary_lookupAL ev dc.id hp,
      if_pos (List.any_eq_true.mpr ⟨dc, hdc, by simp⟩)]
  · intro k hk
    rw [summary_lookupAL ev k hp]
    have hc : ev.dateCandidates.any (fun dc => dc.id == k) = false := by
      rw [List.any_eq_false]
      intro dc hdc
      simpa using hk dc hdc
    rw [hc]
    simp

theorem C1_tally_counts_witness :
    lookupAL (summary evTeamSync) "A" = some ⟨1, 1, 0, 3⟩ ∧
    lookupAL (summary evTeamSync) "B" = some ⟨0, 1, 1, 1⟩ := by
  have h := C1_tally_counts evTeamSync (by decide)
  refine ⟨?_, ?_⟩
  · rw [h.1 ⟨"A", "Mon 10am"⟩ (by decide)]
    decide
  · rw [h.1 ⟨"B", "Tue 2pm"⟩ (by decide)]
    decide

/-! ### `Math.max` over a list of scores -/

theorem le_foldl_max (l : List Nat) (a : Nat) : a ≤ l.foldl Nat.max a := by
  induction l generalizing a with
  | nil => exact Nat.le_refl a
  | cons b l ih =>
    rw [List.foldl_cons]
    exact Nat.le_trans (Nat.le_max_left a b) (ih _)

theorem foldl_max_le {l : List Nat} {a x : Nat} (hx : x ∈ l) :
    x ≤ l.foldl Nat.max a := by
  induction l generalizing a with
  | nil => cases hx
  | cons b l ih =>
    rw [List.foldl_cons]
    rcases List.mem_cons.mp hx with rfl | hx'
    · exact Nat.le_trans (Nat.le_max_right a x) (le_foldl_max _ _)
    · exact ih hx'

theorem foldl_max_mem (l : List Nat) (a : Nat) :
    l.foldl Nat.max a = a ∨ l.foldl Nat.max a ∈ l := by
  induction l generalizing a with
  | nil => left; rfl
  | cons b l ih =>
    rw [List.foldl_cons]
    rcases ih (Nat.max a b) with h | h
    · rcases Nat.le_total a b with hab | hab
      · right
        have hm : Nat.max a b = b := Nat.max_eq_right hab
        rw [h, hm]
        exact List.mem_cons_self b l
      · left
        have hm : Nat.max a b = a := Nat.max_eq_left hab
        rw [h, hm]
    · right; exact List.mem_cons_of_mem _ h

theorem summary_values_zero_of_no_participants (ev : ScheduleEvent)
    (h : ev.participants = []) : ∀ p ∈ summary ev, p.2 = zeroTally := by
  unfold summary
  rw [h]
  exact values_foldl_upsert_zero _ _ (by intro p hp; cases hp)

theorem maxScoreOf_eq_zero_of_no_participants (ev : ScheduleEvent)
    (h : ev.participants = []) : maxScoreOf ev = 0 := by
  unfold maxScoreOf
  rcases foldl_max_mem ((summary ev).map fun p => p.2.score) 0 with h0 | hmem
  · exact h0
  · obtain ⟨p, hp, hps⟩ := List.mem_map.mp hmem
    rw [← hps, summary_values_zero_of_no_participants ev h p hp]
    rfl

theorem maxScoreOf_eq_zero_of_summary_nil (ev : ScheduleEvent)
    (h : summary ev = []) : maxScoreOf ev = 0 := by
  unfold maxScoreOf
  rw [h]
  rfl

/-- C2: the best-slot set is empty whenever the maximal per-candidate score is
0 (in particular with zero participants, or when every response is
`unavailable`, both of which force `maxScoreOf ev = 0`); otherwise it is
exactly the set of candidates whose score equals the maximum, so ties are all
included. -/
theorem C2_best_slots (ev : ScheduleEvent) :
    (maxScoreOf ev = 0 → bestDateIds ev = []) ∧
    (maxScoreOf ev ≠ 0 →
      ∀ k, k ∈ bestDateIds ev ↔
        ∃ t, lookupAL (summary ev) k = some t ∧ t.score = maxScoreOf ev) := by
  constructor
  · intro h
    simp [bestDateIds, h]
  · intro h k
    have hlen : ¬ ev.participants.length = 0 := by
      intro h0
      exact h (maxScoreOf_eq_zero_of_no_participants ev (List.length_eq_zero.mp h0))
    have hempty : ¬ (summary ev).isEmpty = true := by
      intro h0
      exact h (maxScoreOf_eq_zero_of_summary_nil ev (List.isEmpty_iff.mp h0))
    rw [bestDateIds, if_neg hlen, if_neg hempty, if_neg h]
    constructor
    · intro hk
      obtain ⟨p, hpmem, hpk⟩ := List.mem_map.mp hk
      obtain ⟨hps, hscore⟩ := List.mem_filter.mp hpmem
      refine ⟨p.2, ?_, ?_⟩
      · have hl := lookupAL_of_mem (summary ev) p.1 p.2 (nodupKeys_summary ev)
          (by rwa [show (p.1, p.2) = p from rfl])
        rwa [hpk] at hl
      · simpa [maxScoreOf] using hscore
    · rintro ⟨t, hlt, hts⟩
      have hmem := mem_of_lookupAL _ _ _ hlt
      exact List.mem_map.mpr
        ⟨(k, t), List.mem_filter.mpr ⟨hmem, by simpa [maxScoreOf] using hts⟩, rfl⟩

theorem C2_best_slots_witness :
    ("A" ∈ bestDateIds evTeamSync3 ∧ "B" ∈ bestDateIds evTeamSync3) ∧
    bestDateIds { evTeamSync with participants := [] } = [] := by
  refine ⟨⟨?_, ?_⟩, ?_⟩
  · exact ((C2_best_slots evTeamSync3).2 (by decide) "A").mpr ⟨⟨1, 1, 1, 3⟩, by decide, by decide⟩
  · exact ((C2_best_slots evTeamSync3).2 (by decide) "B").mpr ⟨⟨1, 1, 1, 3⟩, by decide, by decide⟩
  · exact (C2_best_slots { evTeamSync with participants := [] }).1 (by decide)

/-! ### Score monotonicity (C3) -/

theorem lookupAL_eraseAL_self {α : Type} (m : List (String × α)) (k : String) :
    lookupAL (eraseAL m k) k = none := by
  induction m with
  | nil => rfl
  | cons p m ih =>
    unfold eraseAL at ih ⊢
    rw [List.filter_cons]
    by_cases h : p.1 = k
    · simpa [h] using ih
    · rw [if_pos (by simpa using h), lookupAL_cons, if_neg (by simpa using h)]
      exact ih

theorem nodupKeys_eraseAL {α : Type} (m : List (String × α)) (k : String)
    (h : (m.map (fun p => p.1)).Nodup) :
    ((eraseAL m k).map (fun p => p.1)).Nodup := by
  induction m with
  | nil => exact h
  | cons p m ih =>
    rw [List.map_cons, List.nodup_cons] at h
    unfold eraseAL
    rw [List.filter_cons]
    by_cases hp : p.1 = k
    · rw [if_neg (by simpa using hp)]
      exact ih h.2
    · rw [if_pos (by simpa using hp), List.map_cons, List.nodup_cons]
      refine ⟨fun hmem => ?_, ih h.2⟩
      obtain ⟨q, hq, hqk⟩ := List.mem_map.mp hmem
      exact h.1 (List.mem_map.mpr ⟨q, List.mem_of_mem_filter hq, hqk⟩)

/-- The score of candidate `k` in the summary, 0 when `k` has no cell
(`summary[dc.id]?.score || 0` is how the view reads it). -/
def scoreAt (ev : ScheduleEvent) (k : String) : Nat :=
  ((lookupAL (summary ev) k).map (fun t => t.score)).getD 0

/-- The event `base` with its participant list refined to `l₁ ++ [p'] ++ l₂`
where `p'` is `p` with the availability for candidate `k` set to `a`. -/
def withResponseAt (base : ScheduleEvent) (l₁ l₂ : List ParticipantResponse)
    (p : ParticipantResponse) (k : String) (a : Option Availability) : ScheduleEvent :=
  { base with
    participants := l₁ ++ ({ p with responses := upsertAL p.responses k a } :: l₂) }

/-- The event `base` with its participant list refined to `l₁ ++ [p'] ++ l₂`
where `p'` is `p` with no entry at all for candidate `k` ("no opinion"). -/
def withoutResponseAt (base : ScheduleEvent) (l₁ l₂ : List ParticipantResponse)
    (p : ParticipantResponse) (k : String) : ScheduleEvent :=
  { base with
    participants := l₁ ++ ({ p with responses := eraseAL p.responses k } :: l₂) }

theorem scoreAt_split (base : ScheduleEvent) (l₁ l₂ : List ParticipantResponse)
    (q : ParticipantResponse) (k : String)
    (hk : base.dateCandidates.any (fun dc => dc.id == k) = true)
    (hnd1 : ∀ r ∈ l₁, (r.responses.map (fun e => e.1)).Nodup)
    (hnd2 : ∀ r ∈ l₂, (r.responses.map (fun e => e.1)).Nodup)
    (hq : (q.responses.map (fun e => e.1)).Nodup) :
    scoreAt { base with participants := l₁ ++ (q :: l₂) } k
      = 2 * (countResp l₁ k .available
             + (if lookupAL q.responses k == some (some .available) then 1 else 0)
             + countResp l₂ k .available)
        + (countResp l₁ k .maybe
           + (if lookupAL q.responses k == some (some .maybe) then 1 else 0)
           + countResp l₂ k .maybe) := by
  unfold scoreAt
  rw [summary_lookupAL _ _ ?hall]
  case hall =>
    intro r hr
    rcases List.mem_append.mp hr with h1 | h2
    · exact hnd1 r h1
    · rcases List.mem_cons.mp h2 with rfl | h3
      · exact hq
      · exact hnd2 r h3
  rw [if_pos hk]
  simp only [Option.map_some', Option.getD_some, countResp, List.countP_append,
    List.countP_cons]
  omega

/-- C3: with all other responses held fixed, moving one participant's
availability for candidate `k` from `unavailable` or from absent to `maybe`
never decreases `k`'s score; setting it to `available` yields a score exactly
2 above the `unavailable` and absent variants and exactly 1 above the `maybe`
variant. -/
theorem C3_score_monotonicity (base : ScheduleEvent)
    (l₁ l₂ : List ParticipantResponse) (p : ParticipantResponse) (k : String)
    (hk : base.dateCandidates.any (fun dc => dc.id == k) = true)
    (hnd1 : ∀ r ∈ l₁, (r.responses.map (fun e => e.1)).Nodup)
    (hnd2 : ∀ r ∈ l₂, (r.responses.map (fun e => e.1)).Nodup)
    (hp : (p.responses.map (fun e => e.1)).Nodup) :
    (scoreAt (withoutResponseAt base l₁ l₂ p k) k
        ≤ scoreAt (withResponseAt base l₁ l₂ p k (some .maybe)) k
      ∧ scoreAt (withResponseAt base l₁ l₂ p k (some .unavailable)) k
        ≤ scoreAt (withResponseAt base l₁ l₂ p k (some .maybe)) k)
    ∧ (scoreAt (withResponseAt base l₁ l₂ p k (some .available)) k
        = scoreAt (withResponseAt base l₁ l₂ p k (some .unavailable)) k + 2
      ∧ scoreAt (withResponseAt base l₁ l₂ p k (some .available)) k
        = scoreAt (withoutResponseAt base l₁ l₂ p k) k + 2)
    ∧ scoreAt (withResponseAt base l₁ l₂ p k (some .available)) k
        = scoreAt (withResponseAt base l₁ l₂ p k (some .maybe)) k + 1 := by
  have hA := scoreAt_split base l₁ l₂
    { p with responses := upsertAL p.responses k (some .available) } k hk hnd1 hnd2
    (nodupKeys_upsertAL _ _ _ hp)
  have hM := scoreAt_split base l₁ l₂
    { p with responses := upsertAL p.responses k (some .maybe) } k hk hnd1 hnd2
    (nodupKeys_upsertAL _ _ _ hp)
  have hU := scoreAt_split base l₁ l₂
    { p with responses := upsertAL p.responses k (some .unavailable) } k hk hnd1 hnd2
    (nodupKeys_upsertAL _ _ _ hp)
  have hN := scoreAt_split base l₁ l₂
    { p with responses := eraseAL p.responses k } k hk hnd1 hnd2
    (nodupKeys_eraseAL _ _ hp)
  rw [show ({ p with responses := upsertAL p.responses k (some .available) } :
      ParticipantResponse).responses = upsertAL p.responses k (some .available) from rfl,
    lookupAL_upsertAL_self] at hA
  rw [show ({ p with responses := upsertAL p.responses k (some .maybe) } :
      ParticipantResponse).responses = upsertAL p.responses k (some .maybe) from rfl,
    lookupAL_upsertAL_self] at hM
  rw [show ({ p with responses := upsertAL p.responses k (some .unavailable) } :
      ParticipantResponse).responses = upsertAL p.responses k (some .unavailable) from rfl,
    lookupAL_upsertAL_self] at hU
  rw [show ({ p with responses := eraseAL p.responses k } :
      ParticipantResponse).responses = eraseAL p.responses k from rfl,
    lookupAL_eraseAL_self] at hN
  simp only [beq_iff_eq, Option.some.injEq, reduceCtorEq, if_true, if_false] at hA hM hU hN
  unfold withResponseAt withoutResponseAt
  refine ⟨⟨?_, ?_⟩, ⟨?_, ?_⟩, ?_⟩ <;> omega

theorem C3_score_monotonicity_witness :
    scoreAt (withResponseAt evTeamSync [aliceP] [] bobP "A" (some .available)) "A"
      = scoreAt (withResponseAt evTeamSync [aliceP] [] bobP "A" (some .maybe)) "A" + 1 := by
  exact (C3_score_monotonicity evTeamSync [aliceP] [] bobP "A" (by decide) (by decide)
    (by decide) (by decide)).2.2

/-! ### Remote store rows (`src/lib/supabase.ts`) -/

structure DbEvent where
  id : String
  title : String
  memo : String
  organizer_email : Option String
  created_at : String
deriving DecidableEq, Repr

structure DbDateCandidate where
  id : String
  event_id : String
  datetime : String
  sort_order : Nat
  created_at : String
deriving DecidableEq, Repr

structure DbResponseAvailability where
  id : String
  response_id : String
  date_candidate_id : String
  availability : Option Availability
deriving DecidableEq, Repr

structure DbParticipantResponse where
  id : String
  event_id : String
  name : String
  comment : String
  created_at : String
  response_availability : Option (List DbResponseAvailability)
deriving DecidableEq, Repr

/-- A failed Supabase call: an error object carrying a `code` (the not-found
signal is code `PGRST116`) and a human-readable `message`. -/
structure StoreErr where
  code : String
  message : String
deriving DecidableEq, Repr

/-- The client-side state touched by the operations of
`src/context/AppContext.tsx`: the `events` cache and the process-wide
`error` slot.  (`isLoading` is set and unconditionally reset around every
operation and bears on no claim, so it is omitted.) -/
structure AppState where
  events : List ScheduleEvent
  error : Option String
deriving DecidableEq, Repr

/-- `Object.fromEntries`: later entries for the same key overwrite earlier
ones; first-insertion position is kept (JS object semantics). -/
def fromEntries {α : Type} (l : List (String × α)) : List (String × α) :=
  l.foldl (fun m e => upsertAL m e.1 e.2) []

/-- The "Transform to ScheduleEvent format" block of `fetchEvent`
(`src/context/AppContext.tsx` lines 128–151).  `dbEvent.memo || ''` and
`r.comment || ''` are the identity on our non-nullable `String` fields;
`dbEvent.organizer_email || undefined` maps both `null` and the empty
string to `undefined`. -/
def assembleEvent (dbEvent : DbEvent) (dateCandidates : List DbDateCandidate)
    (responses : List DbParticipantResponse) : ScheduleEvent :=
  { id := dbEvent.id
    title := dbEvent.title
    memo := dbEvent.memo
    organizerEmail :=
      match dbEvent.organizer_email with
      | some s => if s = "" then none else some s
      | none => none
    createdAt := dbEvent.created_at
    dateCandidates := dateCandidates.map (fun dc => { id := dc.id, datetime := dc.datetime })
    participants := responses.map (fun r =>
      { id := r.id
        name := r.name
        comment := r.comment
        createdAt := r.created_at
        responses := fromEntries ((r.response_availability.getD []).map
          (fun ra => (ra.date_candidate_id, ra.availability))) }) }

/-- The `setEvents` updater run on fetch success (lines 153–160): replace the
entry whose id matches, or append the new event. -/
def cacheUpsert (prev : List ScheduleEvent) (id : String) (event : ScheduleEvent) :
    List ScheduleEvent :=
  if prev.any (fun e => e.id == id) then
    prev.map (fun e => if e.id == id then event else e)
  else
    prev ++ [event]

/-- `fetchEvent` (lines 77–171) as a function of its three awaited store
results.  Each result models one Supabase `{ data, error }` payload as
`Except StoreErr (Option _)`; `.ok none` is a null `data` without error
(the `if (!eventData) return null` and `data || []` cases).  An error whose
`code` is `PGRST116` is the not-found signal and yields `null` without
recording anything; every other error is `throw`n into the `catch` block,
which stores `err.message` in the error slot and returns `null`.  The cache
is touched only on the full-success path. -/
def fetchEventRun (s : AppState) (id : String)
    (eventRes : Except StoreErr (Option DbEvent))
    (dcRes : Except StoreErr (Option (List DbDateCandidate)))
    (respRes : Except StoreErr (Option (List DbParticipantResponse))) :
    AppState × Option ScheduleEvent :=
  let s0 : AppState := { s with error := none }
  match eventRes with
  | .error e =>
      if e.code = "PGRST116" then (s0, none)
      else ({ s0 with error := some e.message }, none)
  | .ok none => (s0, none)
  | .ok (some dbEvent) =>
      match dcRes with
      | .error e => ({ s0 with error := some e.message }, none)
      | .ok dcData =>
          match respRes with
          | .error e => ({ s0 with error := some e.message }, none)
          | .ok respData =>
              let event := assembleEvent dbEvent (dcData.getD []) (respData.getD [])
              ({ s0 with events := cacheUpsert s0.events id event }, some event)

/-- `getEvent` (lines 261–263): a synchronous cache read, never a fetch. -/
def getEvent (s : AppState) (id : String) : Option ScheduleEvent :=
  s.events.find? (fun e => e.id == id)

/-- One `response_availability` insert row. -/
structure AvailabilityRecord where
  response_id : String
  date_candidate_id : String
  availability : Option Availability
deriving DecidableEq, Repr

/-- The `availabilityRecords` construction shared verbatim by
`addParticipantResponse` (lines 292–298) and `updateParticipantResponse`
(lines 360–366): entries of the submitted response map whose value is `null`
are filtered out, the remainder become insert rows. -/
def mkAvailabilityRecords (responseId : String) (responses : AvailMap) :
    List AvailabilityRecord :=
  (responses.filter (fun kv => kv.2 != none)).map
    (fun kv =>
      { response_id := responseId, date_candidate_id := kv.1, availability := kv.2 })

/-- `createEvent` (lines 207–258) as a function of its awaited store results:
the event-header insert, the date-candidates insert (performed only when the
candidate list is nonempty), and the three store results consumed by the
final `fetchEvent`.  A `throw` becomes an `Except.error`: the `catch` block
records the message and rethrows.  The final `fetchEvent` never throws, so
`createEvent` returns the new id even if that re-fetch fails internally. -/
def createEventRun (s : AppState) (title memo : String)
    (dateCandidates : List String) (organizerEmail : Option String)
    (insEvent : Except StoreErr DbEvent)
    (insDc : Except StoreErr Unit)
    (feEvent : Except StoreErr (Option DbEvent))
    (feDc : Except StoreErr (Option (List DbDateCandidate)))
    (feResp : Except StoreErr (Option (List DbParticipantResponse))) :
    AppState × Except String String :=
  let s0 : AppState := { s with error := none }
  match insEvent with
  | .error e => ({ s0 with error := some e.message }, .error e.message)
  | .ok dbEvent =>
      match (if dateCandidates.length > 0 then insDc else .ok ()) with
      | .error e => ({ s0 with error := some e.message }, .error e.message)
      | .ok _ =>
          let r := fetchEventRun s0 dbEvent.id feEvent feDc feResp
          (r.1, .ok dbEvent.id)

/-- `addParticipantResponse` (lines 266–329) as a function of its awaited
store results: the response-row insert, the availability-rows insert
(performed only when the filtered record list is nonempty), and the three
store results consumed by the re-fetch.  The trailing email notification
catches all of its own failures and touches neither the cache nor the error
slot, so it does not appear in the state. -/
def addParticipantResponseRun (s : AppState) (eventId name comment : String)
    (responses : AvailMap)
    (insResp : Except StoreErr DbParticipantResponse)
    (insAv : Except StoreErr Unit)
    (feEvent : Except StoreErr (Option DbEvent))
    (feDc : Except StoreErr (Option (List DbDateCandidate)))
    (feResp : Except StoreErr (Option (List DbParticipantResponse))) :
    AppState × Except String Unit :=
  let s0 : AppState := { s with error := none }
  match insResp with
  | .error e => ({ s0 with error := some e.message }, .error e.message)
  | .ok dbResponse =>
      match
        (if (mkAvailabilityRecords dbResponse.id responses).length > 0
         then insAv else .ok ()) with
      | .error e => ({ s0 with error := some e.message }, .error e.message)
      | .ok _ =>
          let r := fetchEventRun s0 eventId feEvent feDc feResp
          (r.1, .ok ())

/-- `updateParticipantResponse` (lines 332–385): the name/comment update, the
delete of the old availability rows, the insert of the new filtered rows
(only when nonempty), then the re-fetch. -/
def updateParticipantResponseRun (s : AppState)
    (eventId responseId name comment : String) (responses : AvailMap)
    (updResp : Except StoreErr Unit)
    (delAv : Except StoreErr Unit)
    (insAv : Except StoreErr Unit)
    (feEvent : Except StoreErr (Option DbEvent))
    (feDc : Except StoreErr (Option (List DbDateCandidate)))
    (feResp : Except StoreErr (Option (List DbParticipantResponse))) :
    AppState × Except String Unit :=
  let s0 : AppState := { s with error := none }
  match updResp with
  | .error e => ({ s0 with error := some e.message }, .error e.message)
  | .ok _ =>
      match delAv with
      | .error e => ({ s0 with error := some e.message }, .error e.message)
      | .ok _ =>
          match
            (if (mkAvailabilityRecords responseId responses).length > 0
             then insAv else .ok ()) with
          | .error e => ({ s0 with error := some e.message }, .error e.message)
          | .ok _ =>
              let r := fetchEventRun s0 eventId feEvent feDc feResp
              (r.1, .ok ())

/-- `deleteParticipantResponse` (lines 388–413): the row delete (availability
rows cascade at the store), then the re-fetch. -/
def deleteParticipantResponseRun (s : AppState) (eventId responseId : String)
    (delResp : Except StoreErr Unit)
    (feEvent : Except StoreErr (Option DbEvent))
    (feDc : Except StoreErr (Option (List DbDateCandidate)))
    (feResp : Except StoreErr (Option (List DbParticipantResponse))) :
    AppState × Except String Unit :=
  let s0 : AppState := { s with error := none }
  match delResp with
  | .error e => ({ s0 with error := some e.message }, .error e.message)
  | .ok _ =>
      let r := fetchEventRun s0 eventId feEvent feDc feResp
      (r.1, .ok ())

/-! ### Cache-upsert lemmas -/

theorem filter_map_replace_nil (prev : List ScheduleEvent) (id : String)
    (e : ScheduleEvent) (h : ∀ x ∈ prev, ¬ x.id = id) :
    (prev.map (fun x => if x.id == id then e else x)).filter
      (fun x => x.id == id) = [] := by
  induction prev with
  | nil => rfl
  | cons x prev ih =>
    have hx : ¬ x.id = id := h x (List.mem_cons_self x prev)
    rw [List.map_cons, if_neg (by simpa using hx), List.filter_cons,
      if_neg (by simpa using hx)]
    exact ih (fun y hy => h y (List.mem_cons_of_mem _ hy))

theorem filter_map_replace_one (prev : List ScheduleEvent) (id : String)
    (e : ScheduleEvent) (he : e.id = id)
    (hnd : (prev.map (fun x => x.id)).Nodup)
    (hany : prev.any (fun x => x.id == id) = true) :
    (prev.map (fun x => if x.id == id then e else x)).filter
      (fun x => x.id == id) = [e] := by
  induction prev with
  | nil => cases hany
  | cons x prev ih =>
    rw [List.map_cons, List.nodup_cons] at hnd
    by_cases hx : x.id = id
    · have hrest : ∀ y ∈ prev, ¬ y.id = id := by
        intro y hy hyid
        exact hnd.1 (List.mem_map.mpr ⟨y, hy, by rw [hyid, hx]⟩)
      rw [List.map_cons, if_pos (by simpa using hx), List.filter_cons,
        if_pos (by simpa using he), filter_map_replace_nil prev id e hrest]
    · have hany' : prev.any (fun y => y.id == id) = true := by
        rcases List.any_eq_true.mp hany with ⟨y, hy, hyid⟩
        rcases List.mem_cons.mp hy with rfl | hy'
        · exact absurd (by simpa using hyid) hx
        · exact List.any_eq_true.mpr ⟨y, hy', hyid⟩
      rw [List.map_cons, if_neg (by simpa using hx), List.filter_cons,
        if_neg (by simpa using hx)]
      exact ih hnd.2 hany'

theorem cacheUpsert_filter (prev : List ScheduleEvent) (id : String)
    (e : ScheduleEvent) (hnd : (prev.map (fun x => x.id)).Nodup)
    (he : e.id = id) :
    (cacheUpsert prev id e).filter (fun x => x.id == id) = [e] := by
  unfold cacheUpsert
  cases hany : prev.any (fun x => x.id == id) with
  | true =>
    rw [if_pos rfl]
    exact filter_map_replace_one prev id e he hnd hany
  | false =>
    rw [if_neg Bool.false_ne_true, List.filter_append]
    have hp : prev.filter (fun x => x.id == id) = [] := by
      rw [List.filter_eq_nil_iff]
      intro x hx
      rcases List.any_eq_false.mp hany x hx with h
      exact h
    rw [hp, List.nil_append, List.filter_cons, if_pos (by simpa using he)]
    rfl

theorem nodup_cacheUpsert (prev : List ScheduleEvent) (id : String)
    (e : ScheduleEvent) (hnd : (prev.map (fun x => x.id)).Nodup)
    (he : e.id = id) :
    ((cacheUpsert prev id e).map (fun x => x.id)).Nodup := by
  unfold cacheUpsert
  cases hany : prev.any (fun x => x.id == id) with
  | true =>
    rw [if_pos rfl, List.map_map]
    have : ((fun x => x.id) ∘ fun x => if x.id == id then e else x)
        = fun x : ScheduleEvent => x.id := by
      funext x
      by_cases hx : x.id = id
      · simp [Function.comp, hx, he]
      · simp [Function.comp, hx]
    rwa [this]
  | false =>
    rw [if_neg Bool.false_ne_true, List.map_append]
    have hid : id ∉ prev.map (fun x => x.id) := by
      intro hmem
      obtain ⟨x, hx, hxid⟩ := List.mem_map.mp hmem
      have := List.any_eq_false.mp hany x hx
      simp [hxid] at this
    simp [List.nodup_append, hnd, he, hid]

/-- C4: a successful fetch upserts the assembled event into the cache —
replace the entry for that id if present, append otherwise — so afterwards
the cache holds exactly one entry for that id, carrying the latest data;
doing it twice leaves exactly one entry holding the second fetch's data.
(The `Nodup` hypothesis is the cache invariant: it holds of the initial
empty cache and, by the second conjunct, is preserved by every upsert.) -/
theorem C4_cache_upsert (prev : List ScheduleEvent) (id : String)
    (e1 e2 : ScheduleEvent) (hnd : (prev.map (fun x => x.id)).Nodup)
    (h1 : e1.id = id) (h2 : e2.id = id) :
    ((cacheUpsert prev id e1).filter (fun x => x.id == id) = [e1]
      ∧ ((cacheUpsert prev id e1).map (fun x => x.id)).Nodup
      ∧ (cacheUpsert (cacheUpsert prev id e1) id e2).filter
          (fun x => x.id == id) = [e2])
    ∧ (∀ (s : AppState) (dbEvent : DbEvent)
        (dcData : Option (List DbDateCandidate))
        (respData : Option (List DbParticipantResponse)),
        (fetchEventRun s id (.ok (some dbEvent)) (.ok dcData) (.ok respData)).1.events
          = cacheUpsert s.events id
              (assembleEvent dbEvent (dcData.getD []) (respData.getD []))) := by
  refine ⟨⟨cacheUpsert_filter prev id e1 hnd h1,
    nodup_cacheUpsert prev id e1 hnd h1,
    cacheUpsert_filter _ id e2 (nodup_cacheUpsert prev id e1 hnd h1) h2⟩, ?_⟩
  intro s dbEvent dcData respData
  rfl

def evX1 : ScheduleEvent :=
  { id := "x", title := "first", memo := "", organizerEmail := none,
    dateCandidates := [], participants := [], createdAt := "t1" }

def evX2 : ScheduleEvent :=
  { id := "x", title := "second", memo := "", organizerEmail := none,
    dateCandidates := [], participants := [], createdAt := "t2" }

theorem C4_cache_upsert_witness :
    (cacheUpsert (cacheUpsert [] "x" evX1) "x" evX2).filter
      (fun x => x.id == "x") = [evX2] :=
  (C4_cache_upsert [] "x" evX1 evX2 (by decide) (by decide) (by decide)).1.2.2

/-- C6: fetching an event whose header lookup fails with the not-found code
`PGRST116` returns `null` with nothing recorded in the error slot; any other
failure of any of the three fetches stores the error's human-readable
message in the process-wide error slot and still returns `null` to the
caller instead of raising. -/
theorem C6_fetch_error_handling (s : AppState) (id : String) :
    (∀ (e : StoreErr) dcRes respRes, e.code = "PGRST116" →
      fetchEventRun s id (.error e) dcRes respRes
        = ({ events := s.events, error := none }, none))
    ∧ (∀ (e : StoreErr) dcRes respRes, e.code ≠ "PGRST116" →
      fetchEventRun s id (.error e) dcRes respRes
        = ({ events := s.events, error := some e.message }, none))
    ∧ (∀ dbEvent (e : StoreErr) respRes,
      fetchEventRun s id (.ok (some dbEvent)) (.error e) respRes
        = ({ events := s.events, error := some e.message }, none))
    ∧ (∀ dbEvent dcData (e : StoreErr),
      fetchEventRun s id (.ok (some dbEvent)) (.ok dcData) (.error e)
        = ({ events := s.events, error := some e.message }, none)) := by
  refine ⟨?_, ?_, ?_, ?_⟩
  · intro e dcRes respRes hc
    simp [fetchEventRun, hc]
  · intro e dcRes respRes hc
    simp [fetchEventRun, hc]
  · intro dbEvent e respRes
    rfl
  · intro dbEvent dcData e
    rfl

theorem C6_fetch_error_handling_witness :
    fetchEventRun ⟨[], some "old"⟩ "x" (.error ⟨"PGRST116", "not found"⟩)
        (.ok none) (.ok none)
      = (⟨[], none⟩, none)
    ∧ fetchEventRun ⟨[], none⟩ "x" (.error ⟨"500", "boom"⟩) (.ok none) (.ok none)
      = (⟨[], some "boom"⟩, none) := by
  constructor
  · exact (C6_fetch_error_handling ⟨[], some "old"⟩ "x").1
      ⟨"PGRST116", "not found"⟩ (.ok none) (.ok none) rfl
  · exact (C6_fetch_error_handling ⟨[], none⟩ "x").2.1
      ⟨"500", "boom"⟩ (.ok none) (.ok none) (by decide)

/-- C10: the cached events list is mutated only when all three fetches
succeed; on a not-found resolution or on any failure the whole list —
including any previously cached entry for the requested id — is left
unchanged. -/
theorem C10_fetch_cache_frame (s : AppState) (id : String) :
    (∀ (e : StoreErr) dcRes respRes,
      (fetchEventRun s id (.error e) dcRes respRes).1.events = s.events)
    ∧ (∀ dcRes respRes,
      (fetchEventRun s id (.ok none) dcRes respRes).1.events = s.events)
    ∧ (∀ dbEvent (e : StoreErr) respRes,
      (fetchEventRun s id (.ok (some dbEvent)) (.error e) respRes).1.events
        = s.events)
    ∧ (∀ dbEvent dcData (e : StoreErr),
      (fetchEventRun s id (.ok (some dbEvent)) (.ok dcData) (.error e)).1.events
        = s.events) := by
  refine ⟨?_, ?_, ?_, ?_⟩
  · intro e dcRes respRes
    by_cases hc : e.code = "PGRST116" <;> simp [fetchEventRun, hc]
  · intro dcRes respRes
    rfl
  · intro dbEvent e respRes
    rfl
  · intro dbEvent dcData e
    rfl

/-- Case split on the three fetch results: either the cache is untouched, or
all three succeeded and the cache is exactly the upsert of the assembled
event. -/
theorem fetchEventRun_events_cases (s : AppState) (id : String)
    (feE : Except StoreErr (Option DbEvent))
    (feD : Except StoreErr (Option (List DbDateCandidate)))
    (feR : Except StoreErr (Option (List DbParticipantResponse))) :
    (fetchEventRun s id feE feD feR).1.events = s.events
    ∨ ∃ dbEvent dcData respData,
        feE = .ok (some dbEvent) ∧ feD = .ok dcData ∧ feR = .ok respData
        ∧ (fetchEventRun s id feE feD feR).1.events
            = cacheUpsert s.events id
                (assembleEvent dbEvent (dcData.getD []) (respData.getD [])) := by
  cases feE with
  | error e =>
    left
    by_cases hc : e.code = "PGRST116" <;> simp [fetchEventRun, hc]
  | ok odb =>
    cases odb with
    | none => left; rfl
    | some dbEvent =>
      cases feD with
      | error e => left; rfl
      | ok dcData =>
        cases feR with
        | error e => left; rfl
        | ok respData =>
          right
          exact ⟨dbEvent, dcData, respData, rfl, rfl, rfl, rfl⟩

/-- C7: for each of the four mutating operations, either the client-side
event cache comes out exactly as it went in, or every store step — the
mutation steps and all three fetches of the closing re-fetch — succeeded and
the cache is exactly the upsert performed by that re-fetch.  In particular a
failure at any store step leaves the cache unchanged. -/
theorem C7_mutation_cache_frame :
    (∀ (s : AppState) title memo (dcs : List String) org insEvent insDc feE feD feR,
      (createEventRun s title memo dcs org insEvent insDc feE feD feR).1.events
          = s.events
        ∨ ∃ dbEvent feDb dcData respData,
            insEvent = .ok dbEvent
            ∧ (if dcs.length > 0 then insDc else Except.ok ()) = .ok ()
            ∧ feE = .ok (some feDb) ∧ feD = .ok dcData ∧ feR = .ok respData
            ∧ (createEventRun s title memo dcs org insEvent insDc feE feD feR).1.events
                = cacheUpsert s.events dbEvent.id
                    (assembleEvent feDb (dcData.getD []) (respData.getD [])))
    ∧ (∀ (s : AppState) eventId name comment responses insResp insAv feE feD feR,
      (addParticipantResponseRun s eventId name comment responses
          insResp insAv feE feD feR).1.events = s.events
        ∨ ∃ dbResponse feDb dcData respData,
            insResp = .ok dbResponse
            ∧ (if (mkAvailabilityRecords dbResponse.id responses).length > 0
               then insAv else Except.ok ()) = .ok ()
            ∧ feE = .ok (some feDb) ∧ feD = .ok dcData ∧ feR = .ok respData
            ∧ (addParticipantResponseRun s eventId name comment responses
                insResp insAv feE feD feR).1.events
                = cacheUpsert s.events eventId
                    (assembleEvent feDb (dcData.getD []) (respData.getD [])))
    ∧ (∀ (s : AppState) eventId responseId name comment responses
        updResp delAv insAv feE feD feR,
      (updateParticipantResponseRun s eventId responseId name comment responses
          updResp delAv insAv feE feD feR).1.events = s.events
        ∨ ∃ feDb dcData respData,
            updResp = .ok () ∧ delAv = .ok ()
            ∧ (if (mkAvailabilityRecords responseId responses).length > 0
               then insAv else Except.ok ()) = .ok ()
            ∧ feE = .ok (some feDb) ∧ feD = .ok dcData ∧ feR = .ok respData
            ∧ (updateParticipantResponseRun s eventId responseId name comment
                responses updResp delAv insAv feE feD feR).1.events
                = cacheUpsert s.events eventId
                    (assembleEvent feDb (dcData.getD []) (respData.getD [])))
    ∧ (∀ (s : AppState) eventId responseId delResp feE feD feR,
      (deleteParticipantResponseRun s eventId responseId delResp feE feD feR).1.events
          = s.events
        ∨ ∃ feDb dcData respData,
            delResp = .ok ()
            ∧ feE = .ok (some feDb) ∧ feD = .ok dcData ∧ feR = .ok respData
            ∧ (deleteParticipantResponseRun s eventId responseId delResp
                feE feD feR).1.events
                = cacheUpsert s.events eventId
                    (assembleEvent feDb (dcData.getD []) (respData.getD []))) := by
  refine ⟨?_, ?_, ?_, ?_⟩
  · intro s title memo dcs org insEvent insDc feE feD feR
    cases insEvent with
    | error e => left; rfl
    | ok dbEvent =>
      cases hdc : (if dcs.length > 0 then insDc else Except.ok ()) with
      | error e =>
        left
        simp [createEventRun, hdc]
      | ok u =>
        have hev : (createEventRun s title memo dcs org (.ok dbEvent) insDc
            feE feD feR).1.events
            = (fetchEventRun ⟨s.events, none⟩ dbEvent.id feE feD feR).1.events := by
          simp [createEventRun, hdc]
        rcases fetchEventRun_events_cases ⟨s.events, none⟩ dbEvent.id feE feD feR with
          h | ⟨a, b, c, h1, h2, h3, h4⟩
        · left; rw [hev]; exact h
        · right
          exact ⟨dbEvent, a, b, c, rfl, rfl, h1, h2, h3, by rw [hev]; exact h4⟩
  · intro s eventId name comment responses insResp insAv feE feD feR
    cases insResp with
    | error e => left; rfl
    | ok dbResponse =>
      cases hav : (if (mkAvailabilityRecords dbResponse.id responses).length > 0
          then insAv else Except.ok ()) with
      | error e =>
        left
        simp [addParticipantResponseRun, hav]
      | ok u =>
        have hev : (addParticipantResponseRun s eventId name comment responses
            (.ok dbResponse) insAv feE feD feR).1.events
            = (fetchEventRun ⟨s.events, none⟩ eventId feE feD feR).1.events := by
          simp [addParticipantResponseRun, hav]
        rcases fetchEventRun_events_cases ⟨s.events, none⟩ eventId feE feD feR with
          h | ⟨a, b, c, h1, h2, h3, h4⟩
        · left; rw [hev]; exact h
        · right
          exact ⟨dbResponse, a, b, c, rfl, hav, h1, h2, h3, by rw [hev]; exact h4⟩
  · intro s eventId responseId name comment responses updResp delAv insAv feE feD feR
    cases updResp with
    | error e => left; rfl
    | ok u0 =>
      cases delAv with
      | error e => left; rfl
      | ok u1 =>
        cases hav : (if (mkAvailabilityRecords responseId responses).length > 0
            then insAv else Except.ok ()) with
        | error e =>
          left
          simp [updateParticipantResponseRun, hav]
        | ok u =>
          have hev : (updateParticipantResponseRun s eventId responseId name comment
              responses (.ok u0) (.ok u1) insAv feE feD feR).1.events
              = (fetchEventRun ⟨s.events, none⟩ eventId feE feD feR).1.events := by
            simp [updateParticipantResponseRun, hav]
          rcases fetchEventRun_events_cases ⟨s.events, none⟩ eventId feE feD feR with
            h | ⟨a, b, c, h1, h2, h3, h4⟩
          · left; rw [hev]; exact h
          · right
            exact ⟨a, b, c, rfl, rfl, rfl, h1, h2, h3, by rw [hev]; exact h4⟩
  · intro s eventId responseId delResp feE feD feR
    cases delResp with
    | error e => left; rfl
    | ok u0 =>
      have hev : (deleteParticipantResponseRun s eventId responseId (.ok u0)
          feE feD feR).1.events
          = (fetchEventRun ⟨s.events, none⟩ eventId feE feD feR).1.events := rfl
      rcases fetchEventRun_events_cases ⟨s.events, none⟩ eventId feE feD feR with
        h | ⟨a, b, c, h1, h2, h3, h4⟩
      · left; rw [hev]; exact h
      · right
        exact ⟨a, b, c, rfl, h1, h2, h3, by rw [hev]; exact h4⟩

/-! ### No stored null availability (C9) -/

theorem mem_foldl_upsert {α : Type} (l : List (String × α))
    (m : List (String × α)) (kv : String × α)
    (h : kv ∈ l.foldl (fun m e => upsertAL m e.1 e.2) m) :
    kv ∈ m ∨ kv ∈ l := by
  induction l generalizing m with
  | nil => left; exact h
  | cons e l ih =>
    rcases ih (upsertAL m e.1 e.2) h with h1 | h2
    · rcases mem_upsertAL h1 with heq | hmem
      · right
        rw [heq]
        exact List.mem_cons_self (e.1, e.2) l
      · left; exact hmem
    · right; exact List.mem_cons_of_mem _ h2

theorem mem_fromEntries {α : Type} {l : List (String × α)} {kv : String × α}
    (h : kv ∈ fromEntries l) : kv ∈ l := by
  rcases mem_foldl_upsert l [] kv h with h1 | h2
  · cases h1
  · exact h2

/-- C9: the availability rows built by add-response and update-response
contain no `null` value (null entries are filtered out before insertion), and
consequently an event assembled from a store whose availability rows carry no
`null` has response maps with no `null`-valued entry: "no opinion" can only
appear as an absent key. -/
theorem C9_no_null_availability :
    (∀ (responseId : String) (responses : AvailMap),
      ∀ rec ∈ mkAvailabilityRecords responseId responses,
        rec.availability ≠ none)
    ∧ (∀ (dbEvent : DbEvent) (dcs : List DbDateCandidate)
        (rs : List DbParticipantResponse),
      (∀ r ∈ rs, ∀ ra ∈ r.response_availability.getD [], ra.availability ≠ none) →
      ∀ p ∈ (assembleEvent dbEvent dcs rs).participants,
        ∀ kv ∈ p.responses, kv.2 ≠ none) := by
  constructor
  · intro responseId responses rec hrec
    unfold mkAvailabilityRecords at hrec
    obtain ⟨kv, hkv, hrec'⟩ := List.mem_map.mp hrec
    have hne := (List.mem_filter.mp hkv).2
    rw [← hrec']
    simpa using hne
  · intro dbEvent dcs rs hrs p hp kv hkv
    obtain ⟨r, hr, hpr⟩ := List.mem_map.mp hp
    rw [← hpr] at hkv
    have hkv' := mem_fromEntries hkv
    obtain ⟨ra, hra, hkvra⟩ := List.mem_map.mp hkv'
    have := hrs r hr ra hra
    rw [← hkvra]
    exact this

def dbRespSample : DbParticipantResponse :=
  { id := "r1", event_id := "e1", name := "Alice", comment := "",
    created_at := "t1",
    response_availability :=
      some [{ id := "a1", response_id := "r1", date_candidate_id := "A",
              availability := some .available }] }

theorem C9_no_null_availability_witness :
    (∀ rec ∈ mkAvailabilityRecords "r1"
        [("A", some Availability.available), ("B", none)],
      rec.availability ≠ none)
    ∧ (∀ p ∈ (assembleEvent ⟨"e1", "T", "", none, "t0"⟩ [] [dbRespSample]).participants,
        ∀ kv ∈ p.responses, kv.2 ≠ none) :=
  ⟨C9_no_null_availability.1 "r1" [("A", some Availability.available), ("B", none)],
   C9_no_null_availability.2 ⟨"e1", "T", "", none, "t0"⟩ [] [dbRespSample] (by decide)⟩

/-! ### Identifier-based shareable-link codec (C5)

`getShareableUrl` (lines 71–74) produces `baseUrl + '#/event/' + id`; the
view-sync effect (lines 196–204) writes `#/event/{id}` or
`#/event/{id}/respond` into the address; the mount effect (lines 174–193)
parses `window.location.hash` back.  JS strings are modelled as `List Char`
so that `split('/')` can be reasoned about character by character. -/

/-- `AppView` from `src/types/index.ts`. -/
inductive AppView where
  | home
  | create
  | event
  | respond
deriving DecidableEq, Repr

/-- The `'#/event/'` marker. -/
def hashMark : List Char := ['#', '/', 'e', 'v', 'e', 'n', 't', '/']

/-- The hash fragment of `getShareableUrl eventId` (and of the address
written for the `event` view): `'#/event/' + eventId`. -/
def eventHashOf (eventId : List Char) : List Char := hashMark ++ eventId

/-- The hash fragment written for the `respond` view:
`'#/event/' + eventId + '/respond'`. -/
def respondHashOf (eventId : List Char) : List Char :=
  hashMark ++ eventId ++ ['/', 'r', 'e', 's', 'p', 'o', 'n', 'd']

/-- JS `String.prototype.split` with a one-character separator. -/
def splitOnChar (c : Char) : List Char → List (List Char)
  | [] => [[]]
  | x :: xs =>
    if x = c then [] :: splitOnChar c xs
    else
      match splitOnChar c xs with
      | [] => [[x]]
      | h :: t => (x :: h) :: t

/-- The parsing done by the mount effect (lines 174–193): if the hash starts
with `'#/event/'`, strip that marker (`replace('#/event/', '')` removes the
first occurrence, which for a string passing the `startsWith` test is the
leading 8 characters), split on `'/'`, take `parts[0]` as the event id
(an empty id is falsy and aborts), and select the respond view exactly when
`parts[1] === 'respond'`.  `none` means the effect changes no view state. -/
def parseHash (hash : List Char) : Option (List Char × AppView) :=
  if hashMark.isPrefixOf hash then
    match splitOnChar '/' (hash.drop 8) with
    | [] => none
    | eventId :: rest =>
      if eventId.isEmpty then none
      else some (eventId,
        if rest.head? == some ['r', 'e', 's', 'p', 'o', 'n', 'd']
        then AppView.respond else AppView.event)
  else none

theorem isPrefixOf_append_self {α : Type} [BEq α] [LawfulBEq α]
    (l x : List α) : l.isPrefixOf (l ++ x) = true := by
  induction l with
  | nil => simp [List.isPrefixOf]
  | cons a l ih => simpa [List.isPrefixOf] using ih

theorem splitOnChar_not_mem (c : Char) (x : List Char) (h : c ∉ x) :
    splitOnChar c x = [x] := by
  induction x with
  | nil => rfl
  | cons a x ih =>
    have ha : ¬ a = c := fun hac => h (hac ▸ List.mem_cons_self a x)
    rw [splitOnChar, if_neg ha, ih (fun hc => h (List.mem_cons_of_mem _ hc))]

theorem splitOnChar_append_cons (c : Char) (x rest : List Char) (h : c ∉ x) :
    splitOnChar c (x ++ c :: rest) = x :: splitOnChar c rest := by
  induction x with
  | nil => simp [splitOnChar]
  | cons a x ih =>
    have ha : ¬ a = c := fun hac => h (hac ▸ List.mem_cons_self a x)
    rw [List.cons_append, splitOnChar, if_neg ha,
      ih (fun hc => h (List.mem_cons_of_mem _ hc))]

/-- C5: for every nonempty event identifier containing no `'/'` (store ids
are UUIDs, which satisfy both), parsing the hash built for the event view
returns the same identifier with the event view, and parsing the hash built
for the respond view returns the same identifier with the respond view. -/
theorem C5_link_codec (id : List Char) (hne : id ≠ []) (hslash : '/' ∉ id) :
    parseHash (eventHashOf id) = some (id, AppView.event)
    ∧ parseHash (respondHashOf id) = some (id, AppView.respond) := by
  have hsplit1 : splitOnChar '/' id = [id] := splitOnChar_not_mem '/' id hslash
  have hsplit2 : splitOnChar '/' (id ++ '/' :: ['r', 'e', 's', 'p', 'o', 'n', 'd'])
      = id :: [['r', 'e', 's', 'p', 'o', 'n', 'd']] := by
    rw [splitOnChar_append_cons '/' id _ hslash]
    rfl
  obtain ⟨a, as, rfl⟩ : ∃ a as, id = a :: as := by
    cases id with
    | nil => exact absurd rfl hne
    | cons a as => exact ⟨a, as, rfl⟩
  constructor
  · unfold parseHash eventHashOf
    rw [if_pos (isPrefixOf_append_self hashMark _),
      show (hashMark ++ (a :: as)).drop 8 = a :: as from rfl, hsplit1]
    rfl
  · unfold parseHash respondHashOf
    rw [List.append_assoc, if_pos (isPrefixOf_append_self hashMark _),
      show (hashMark ++ ((a :: as) ++ ['/', 'r', 'e', 's', 'p', 'o', 'n', 'd'])).drop 8
        = (a :: as) ++ '/' :: ['r', 'e', 's', 'p', 'o', 'n', 'd'] from rfl,
      hsplit2]
    rfl

theorem C5_link_codec_witness :
    parseHash (eventHashOf ['a', 'b', 'c']) = some (['a', 'b', 'c'], AppView.event)
    ∧ parseHash (respondHashOf ['a', 'b', 'c'])
        = some (['a', 'b', 'c'], AppView.respond) :=
  C5_link_codec ['a', 'b', 'c'] (by decide) (by decide)

/-! ### Self-contained snapshot codec (C8)

The snapshot variant of the link codec is not present under `src/` (only the
identifier-based variant is); per the spec it serializes the event to JSON,
UTF-8-encodes it and base64-encodes the bytes with a URL-fragment-safe
alphabet, and the decoder inverts this, yielding "no event" on malformed
input.  All definitions in this section are modelled from the spec.  Bytes
are `Nat`s below 256, JS strings are `List Char`. -/

theorem char_toNat_lt (c : Char) : c.toNat < 1114112 := by
  have he : c.toNat = c.val.toNat := rfl
  rcases c.valid with h | h
  · rw [he]; exact Nat.lt_trans h (by norm_num)
  · rw [he]; exact h.2

/-- Modelled from the spec: UTF-8 encoding of one unicode scalar value. -/
def utf8EncodeChar (c : Char) : List Nat :=
  let v := c.toNat
  if v < 128 then [v]
  else if v < 2048 then [192 + v / 64, 128 + v % 64]
  else if v < 65536 then [224 + v / 4096, 128 + (v / 64) % 64, 128 + v % 64]
  else [240 + v / 262144, 128 + (v / 4096) % 64, 128 + (v / 64) % 64, 128 + v % 64]

/-- Modelled from the spec: UTF-8 encoding of a string. -/
def utf8Encode : List Char → List Nat
  | [] => []
  | c :: cs => utf8EncodeChar c ++ utf8Encode cs

mutual

/-- Modelled from the spec: UTF-8 decoding; `none` on a malformed byte
sequence. -/
def utf8Decode : List Nat → Option (List Char)
  | [] => some []
  | b :: bs =>
    if b < 128 then (utf8Decode bs).map (fun cs => Char.ofNat b :: cs)
    else if b < 192 then none
    else if b < 224 then utf8DecodeTwo b bs
    else if b < 240 then utf8DecodeThree b bs
    else utf8DecodeFour b bs

def utf8DecodeTwo (b : Nat) : List Nat → Option (List Char)
  | b1 :: bs1 =>
    if 128 ≤ b1 ∧ b1 < 192 then
      (utf8Decode bs1).map (fun cs => Char.ofNat ((b - 192) * 64 + (b1 - 128)) :: cs)
    else none
  | [] => none

def utf8DecodeThree (b : Nat) : List Nat → Option (List Char)
  | b1 :: b2 :: bs2 =>
    if (128 ≤ b1 ∧ b1 < 192) ∧ (128 ≤ b2 ∧ b2 < 192) then
      (utf8Decode bs2).map (fun cs =>
        Char.ofNat ((b - 224) * 4096 + (b1 - 128) * 64 + (b2 - 128)) :: cs)
    else none
  | _ => none

def utf8DecodeFour (b : Nat) : List Nat → Option (List Char)
  | b1 :: b2 :: b3 :: bs3 =>
    if b < 248 ∧ (128 ≤ b1 ∧ b1 < 192) ∧ (128 ≤ b2 ∧ b2 < 192)
        ∧ (128 ≤ b3 ∧ b3 < 192) then
      (utf8Decode bs3).map (fun cs =>
        Char.ofNat ((b - 240) * 262144 + (b1 - 128) * 4096
          + (b2 - 128) * 64 + (b3 - 128)) :: cs)
    else none
  | _ => none

end

theorem utf8Decode_encodeChar (c : Char) (rest : List Nat) :
    utf8Decode (utf8EncodeChar c ++ rest)
      = (utf8Decode rest).map (fun cs => c :: cs) := by
  have hlt : c.toNat < 1114112 := char_toNat_lt c
  unfold utf8EncodeChar
  by_cases h1 : c.toNat < 128
  · rw [if_pos h1]
    rw [show ([c.toNat] ++ rest : List Nat) = c.toNat :: rest from rfl]
    rw [utf8Decode, if_pos h1, Char.ofNat_toNat]
  · by_cases h2 : c.toNat < 2048
    · rw [if_neg h1, if_pos h2]
      have e1 : ¬ (192 + c.toNat / 64 < 128) := by omega
      have e2 : ¬ (192 + c.toNat / 64 < 192) := by omega
      have e3 : 192 + c.toNat / 64 < 224 := by omega
      have e4 : 128 ≤ 128 + c.toNat % 64 ∧ 128 + c.toNat % 64 < 192 := by omega
      have hv : (192 + c.toNat / 64 - 192) * 64 + (128 + c.toNat % 64 - 128)
          = c.toNat := by omega
      rw [show ([192 + c.toNat / 64, 128 + c.toNat % 64] ++ rest : List Nat)
          = (192 + c.toNat / 64) :: (128 + c.toNat % 64) :: rest from rfl]
      rw [utf8Decode, if_neg e1, if_neg e2, if_pos e3, utf8DecodeTwo,
        if_pos e4, hv, Char.ofNat_toNat]
    · by_cases h3 : c.toNat < 65536
      · rw [if_neg h1, if_neg h2, if_pos h3]
        have e1 : ¬ (224 + c.toNat / 4096 < 128) := by omega
        have e2 : ¬ (224 + c.toNat / 4096 < 192) := by omega
        have e3 : ¬ (224 + c.toNat / 4096 < 224) := by omega
        have e4 : 224 + c.toNat / 4096 < 240 := by omega
        have e5 : (128 ≤ 128 + c.toNat / 64 % 64 ∧ 128 + c.toNat / 64 % 64 < 192)
            ∧ (128 ≤ 128 + c.toNat % 64 ∧ 128 + c.toNat % 64 < 192) := by omega
        have hv : (224 + c.toNat / 4096 - 224) * 4096
            + (128 + c.toNat / 64 % 64 - 128) * 64 + (128 + c.toNat % 64 - 128)
            = c.toNat := by omega
        rw [show ([224 + c.toNat / 4096, 128 + c.toNat / 64 % 64,
              128 + c.toNat % 64] ++ rest : List Nat)
            = (224 + c.toNat / 4096) :: (128 + c.toNat / 64 % 64)
              :: (128 + c.toNat % 64) :: rest from rfl]
        rw [utf8Decode, if_neg e1, if_neg e2, if_neg e3, if_pos e4,
          utf8DecodeThree, if_pos e5, hv, Char.ofNat_toNat]
      · rw [if_neg h1, if_neg h2, if_neg h3]
        have e1 : ¬ (240 + c.toNat / 262144 < 128) := by omega
        have e2 : ¬ (240 + c.toNat / 262144 < 192) := by omega
        have e3 : ¬ (240 + c.toNat / 262144 < 224) := by omega
        have e4 : ¬ (240 + c.toNat / 262144 < 240) := by omega
        have e5 : 240 + c.toNat / 262144 < 248
            ∧ (128 ≤ 128 + c.toNat / 4096 % 64 ∧ 128 + c.toNat / 4096 % 64 < 192)
            ∧ (128 ≤ 128 + c.toNat / 64 % 64 ∧ 128 + c.toNat / 64 % 64 < 192)
            ∧ (128 ≤ 128 + c.toNat % 64 ∧ 128 + c.toNat % 64 < 192) := by omega
        have hv : (240 + c.toNat / 262144 - 240) * 262144
            + (128 + c.toNat / 4096 % 64 - 128) * 4096
            + (128 + c.toNat / 64 % 64 - 128) * 64 + (128 + c.toNat % 64 - 128)
            = c.toNat := by omega
        rw [show ([240 + c.toNat / 262144, 128 + c.toNat / 4096 % 64,
              128 + c.toNat / 64 % 64, 128 + c.toNat % 64] ++ rest : List Nat)
            = (240 + c.toNat / 262144) :: (128 + c.toNat / 4096 % 64)
              :: (128 + c.toNat / 64 % 64) :: (128 + c.toNat % 64) :: rest from rfl]
        rw [utf8Decode, if_neg e1, if_neg e2, if_neg e3, if_neg e4,
          utf8DecodeFour, if_pos e5, hv, Char.ofNat_toNat]

theorem utf8_roundtrip : ∀ (cs : List Char), utf8Decode (utf8Encode cs) = some cs
  | [] => rfl
  | c :: cs => by
    rw [show utf8Encode (c :: cs) = utf8EncodeChar c ++ utf8Encode cs from rfl,
      utf8Decode_encodeChar, utf8_roundtrip cs]
    rfl

theorem utf8Encode_lt (cs : List Char) : ∀ b ∈ utf8Encode cs, b < 256 := by
  induction cs with
  | nil => intro b hb; cases hb
  | cons c cs ih =>
    intro b hb
    rw [show utf8Encode (c :: cs) = utf8EncodeChar c ++ utf8Encode cs from rfl] at hb
    rcases List.mem_append.mp hb with h | h
    · have hlt : c.toNat < 1114112 := char_toNat_lt c
      unfold utf8EncodeChar at h
      by_cases h1 : c.toNat < 128
      · rw [if_pos h1] at h
        simp at h
        omega
      · by_cases h2 : c.toNat < 2048
        · rw [if_neg h1, if_pos h2] at h
          simp at h
          rcases h with h | h <;> omega
        · by_cases h3 : c.toNat < 65536
          · rw [if_neg h1, if_neg h2, if_pos h3] at h
            simp at h
            rcases h with h | h | h <;> omega
          · rw [if_neg h1, if_neg h2, if_neg h3] at h
            simp at h
            rcases h with h | h | h | h <;> omega
    · exact ih b h

/-- Modelled from the spec: the URL-fragment-safe base64 alphabet
(`A–Z a–z 0–9 - _`), so the encoded text needs no percent-encoding. -/
def b64Alphabet : List Char :=
  "ABCDEFGHIJKLMNOPQRSTUVWXYZabcdefghijklmnopqrstuvwxyz0123456789-_".data

def b64Char (n : Nat) : Char := b64Alphabet.getD n 'A'

def b64Index (c : Char) : Option Nat := b64Alphabet.indexOf? c

/-- Modelled from the spec: base64 encoding of a byte list, three bytes to
four characters, `'='`-padded. -/
def base64Encode : List Nat → List Char
  | [] => []
  | [b0] => [b64Char (b0 / 4), b64Char (b0 % 4 * 16), '=', '=']
  | [b0, b1] =>
      [b64Char (b0 / 4), b64Char (b0 % 4 * 16 + b1 / 16), b64Char (b1 % 16 * 4), '=']
  | b0 :: b1 :: b2 :: bs =>
      b64Char (b0 / 4) :: b64Char (b0 % 4 * 16 + b1 / 16)
        :: b64Char (b1 % 16 * 4 + b2 / 64) :: b64Char (b2 % 64) :: base64Encode bs

/-- Modelled from the spec: base64 decoding; `none` on anything malformed. -/
def base64Decode : List Char → Option (List Nat)
  | [] => some []
  | c0 :: c1 :: c2 :: c3 :: rest =>
    match b64Index c0, b64Index c1 with
    | some n0, some n1 =>
      if c2 = '=' then
        if c3 = '=' ∧ rest = [] then
          if n1 % 16 = 0 then some [n0 * 4 + n1 / 16] else none
        else none
      else
        match b64Index c2 with
        | some n2 =>
          if c3 = '=' then
            if rest = [] then
              if n2 % 4 = 0 then some [n0 * 4 + n1 / 16, n1 % 16 * 16 + n2 / 4]
              else none
            else none
          else
            match b64Index c3 with
            | some n3 =>
              (base64Decode rest).map
                (fun tail => (n0 * 4 + n1 / 16) :: (n1 % 16 * 16 + n2 / 4)
                  :: (n2 % 4 * 64 + n3) :: tail)
            | none => none
        | none => none
    | _, _ => none
  | _ => none

theorem b64Index_b64Char : ∀ n, n < 64 → b64Index (b64Char n) = some n := by
  decide

theorem b64Char_ne_pad : ∀ n, n < 64 → b64Char n ≠ '=' := by
  decide

theorem base64_roundtrip : ∀ (bs : List Nat), (∀ b ∈ bs, b < 256) →
    base64Decode (base64Encode bs) = some bs
  | [], _ => rfl
  | [b0], h => by
    have hb0 : b0 < 256 := h b0 (by simp)
    have i0 := b64Index_b64Char (b0 / 4) (by omega)
    have i1 := b64Index_b64Char (b0 % 4 * 16) (by omega)
    rw [show base64Encode [b0]
        = [b64Char (b0 / 4), b64Char (b0 % 4 * 16), '=', '='] from rfl]
    simp only [base64Decode, i0, i1, if_pos rfl, and_self, if_true,
      if_pos (show b0 % 4 * 16 % 16 = 0 by omega)]
    simp only [Option.some.injEq, List.cons.injEq, and_true]
    omega
  | [b0, b1], h => by
    have hb0 : b0 < 256 := h b0 (by simp)
    have hb1 : b1 < 256 := h b1 (by simp)
    have i0 := b64Index_b64Char (b0 / 4) (by omega)
    have i1 := b64Index_b64Char (b0 % 4 * 16 + b1 / 16) (by omega)
    have i2 := b64Index_b64Char (b1 % 16 * 4) (by omega)
    have p2 := b64Char_ne_pad (b1 % 16 * 4) (by omega)
    rw [show base64Encode [b0, b1]
        = [b64Char (b0 / 4), b64Char (b0 % 4 * 16 + b1 / 16),
           b64Char (b1 % 16 * 4), '='] from rfl]
    simp only [base64Decode, i0, i1, i2, if_neg p2, if_pos rfl, if_true,
      if_pos (show b1 % 16 * 4 % 4 = 0 by omega)]
    simp only [Option.some.injEq, List.cons.injEq, and_true]
    omega
  | [b0, b1, b2], h => by
    have hb0 : b0 < 256 := h b0 (by simp)
    have hb1 : b1 < 256 := h b1 (by simp)
    have hb2 : b2 < 256 := h b2 (by simp)
    have i0 := b64Index_b64Char (b0 / 4) (by omega)
    have i1 := b64Index_b64Char (b0 % 4 * 16 + b1 / 16) (by omega)
    have i2 := b64Index_b64Char (b1 % 16 * 4 + b2 / 64) (by omega)
    have i3 := b64Index_b64Char (b2 % 64) (by omega)
    have p2 := b64Char_ne_pad (b1 % 16 * 4 + b2 / 64) (by omega)
    have p3 := b64Char_ne_pad (b2 % 64) (by omega)
    rw [show base64Encode [b0, b1, b2]
        = [b64Char (b0 / 4), b64Char (b0 % 4 * 16 + b1 / 16),
           b64Char (b1 % 16 * 4 + b2 / 64), b64Char (b2 % 64)] from rfl]
    simp only [base64Decode, i0, i1, i2, i3, if_neg p2, if_neg p3,
      Option.map_some']
    simp only [Option.some.injEq, List.cons.injEq, and_true]
    omega
  | b0 :: b1 :: b2 :: b3 :: bs, h => by
    have hb0 : b0 < 256 := h b0 (by simp)
    have hb1 : b1 < 256 := h b1 (by simp)
    have hb2 : b2 < 256 := h b2 (by simp)
    have i0 := b64Index_b64Char (b0 / 4) (by omega)
    have i1 := b64Index_b64Char (b0 % 4 * 16 + b1 / 16) (by omega)
    have i2 := b64Index_b64Char (b1 % 16 * 4 + b2 / 64) (by omega)
    have i3 := b64Index_b64Char (b2 % 64) (by omega)
    have p2 := b64Char_ne_pad (b1 % 16 * 4 + b2 / 64) (by omega)
    have p3 := b64Char_ne_pad (b2 % 64) (by omega)
    have ih := base64_roundtrip (b3 :: bs) (fun b hb => h b (by
      rcases List.mem_cons.mp hb with rfl | hb'
      · exact List.mem_cons_of_mem _ (List.mem_cons_of_mem _
          (List.mem_cons_of_mem _ (List.mem_cons_self _ _)))
      · exact List.mem_cons_of_mem _ (List.mem_cons_of_mem _
          (List.mem_cons_of_mem _ (List.mem_cons_of_mem _ hb')))))
    rw [show base64Encode (b0 :: b1 :: b2 :: b3 :: bs)
        = b64Char (b0 / 4) :: b64Char (b0 % 4 * 16 + b1 / 16)
          :: b64Char (b1 % 16 * 4 + b2 / 64) :: b64Char (b2 % 64)
          :: base64Encode (b3 :: bs) from rfl]
    simp only [base64Decode, i0, i1, i2, i3, if_neg p2, if_neg p3, ih,
      Option.map_some']
    simp only [Option.some.injEq, List.cons.injEq, and_true]
    omega


/-- Modelled from the spec: JSON string escaping (quote and backslash). -/
def escapeChar (c : Char) : List Char :=
  if c = '"' then ['\\', '"']
  else if c = '\\' then ['\\', '\\']
  else [c]

def printStringBody : List Char → List Char
  | [] => []
  | c :: cs => escapeChar c ++ printStringBody cs

/-- A JSON string literal: `"…"` with `"` and `\` escaped. -/
def printString (s : List Char) : List Char :=
  '"' :: (printStringBody s ++ ['"'])

/-- Parse the body of a JSON string literal up to the closing quote. -/
def parseStringBody : List Char → Option (List Char × List Char)
  | [] => none
  | c :: rest =>
    if c = '"' then some ([], rest)
    else if c = '\\' then
      match rest with
      | [] => none
      | c2 :: rest2 => (parseStringBody rest2).map (fun p => (c2 :: p.1, p.2))
    else (parseStringBody rest).map (fun p => (c :: p.1, p.2))

def parseString : List Char → Option (List Char × List Char)
  | [] => none
  | c :: rest => if c = '"' then parseStringBody rest else none

theorem parseStringBody_quote (rest : List Char) :
    parseStringBody ('"' :: rest) = some ([], rest) := by
  rw [parseStringBody.eq_def]
  simp

theorem parseStringBody_esc (c2 : Char) (rest : List Char) :
    parseStringBody ('\\' :: c2 :: rest)
      = (parseStringBody rest).map (fun p => (c2 :: p.1, p.2)) := by
  rw [parseStringBody.eq_def]
  simp

theorem parseStringBody_other (c : Char) (rest : List Char)
    (h1 : ¬ c = '"') (h2 : ¬ c = '\\') :
    parseStringBody (c :: rest)
      = (parseStringBody rest).map (fun p => (c :: p.1, p.2)) := by
  rw [parseStringBody.eq_def]
  simp [h1, h2]

theorem parseStringBody_print (s rest : List Char) :
    parseStringBody (printStringBody s ++ '"' :: rest) = some (s, rest) := by
  induction s with
  | nil =>
    rw [show printStringBody [] ++ '"' :: rest = '"' :: rest from rfl,
      parseStringBody_quote]
  | cons c s ih =>
    by_cases h1 : c = '"'
    · subst h1
      rw [show printStringBody ('"' :: s) ++ '"' :: rest
          = '\\' :: '"' :: (printStringBody s ++ '"' :: rest) from by
        simp [printStringBody, escapeChar]]
      rw [parseStringBody_esc, ih]
      rfl
    · by_cases h2 : c = '\\'
      · subst h2
        rw [show printStringBody ('\\' :: s) ++ '"' :: rest
            = '\\' :: '\\' :: (printStringBody s ++ '"' :: rest) from by
          simp [printStringBody, escapeChar]]
        rw [parseStringBody_esc, ih]
        rfl
      · rw [show printStringBody (c :: s) ++ '"' :: rest
            = c :: (printStringBody s ++ '"' :: rest) from by
          simp [printStringBody, escapeChar, h1, h2]]
        rw [parseStringBody_other c _ h1 h2, ih]
        rfl

theorem parseString_print (s rest : List Char) :
    parseString (printString s ++ rest) = some (s, rest) := by
  rw [show printString s ++ rest = '"' :: (printStringBody s ++ '"' :: rest) from by
    simp [printString]]
  rw [parseString, if_pos rfl, parseStringBody_print]

/-- Consume an expected literal prefix. -/
def expectLit : List Char → List Char → Option (List Char)
  | [], l => some l
  | _ :: _, [] => none
  | c :: cs, x :: xs => if x = c then expectLit cs xs else none

theorem expectLit_append (lit rest : List Char) :
    expectLit lit (lit ++ rest) = some rest := by
  induction lit with
  | nil => rfl
  | cons c cs ih =>
    rw [List.cons_append, expectLit, if_pos rfl]
    exact ih

/-- Comma-separated printing of a list's items. -/
def printSep {β : Type} (pr : β → List Char) : List β → List Char
  | [] => []
  | [b] => pr b
  | b :: bs => pr b ++ ',' :: printSep pr bs

/-- `[items]` / `{entries}` printing. -/
def printDelim {β : Type} (openc closec : Char) (pr : β → List Char)
    (xs : List β) : List Char :=
  openc :: (match xs with
    | [] => [closec]
    | _ => printSep pr xs ++ [closec])

/-- The item loop of a delimited-list parser: an item, then `,` and more
items or the closing character.  `fuel` bounds the number of items. -/
def parseLoop {β : Type} (closec : Char)
    (parseItem : List Char → Option (β × List Char)) :
    Nat → List Char → Option (List β × List Char)
  | 0, _ => none
  | fuel + 1, l =>
    (parseItem l).bind fun p =>
      match p.2 with
      | [] => none
      | c :: r2 =>
        if c = ',' then
          (parseLoop closec parseItem fuel r2).map (fun q => (p.1 :: q.1, q.2))
        else if c = closec then some ([p.1], r2)
        else none

/-- Parse `openc`, then either the immediate `closec` (empty list) or the
item loop. -/
def parseDelim {β : Type} (openc closec : Char)
    (parseItem : List Char → Option (β × List Char)) (fuel : Nat) :
    List Char → Option (List β × List Char)
  | [] => none
  | c :: rest =>
    if c = openc then
      match rest with
      | [] => none
      | c2 :: rest2 =>
        if c2 = closec then some ([], rest2)
        else parseLoop closec parseItem fuel (c2 :: rest2)
    else none

theorem parseLoop_print {β : Type} (closec : Char)
    (parseItem : List Char → Option (β × List Char)) (pr : β → List Char)
    (hcl : ¬ closec = ',') :
    ∀ (xs : List β), xs ≠ [] →
      (∀ b ∈ xs, ∀ rest, parseItem (pr b ++ rest) = some (b, rest)) →
      ∀ (fuel : Nat), xs.length ≤ fuel → ∀ rest,
        parseLoop closec parseItem fuel (printSep pr xs ++ closec :: rest)
          = some (xs, rest)
  | [], hne, _, _, _, _ => absurd rfl hne
  | [b], _, hitem, fuel + 1, _, rest => by
    rw [show printSep pr [b] = pr b from rfl, parseLoop,
      hitem b (List.mem_cons_self b []) (closec :: rest)]
    simp only [Option.bind]
    rw [if_neg hcl]
    simp
  | b :: b2 :: bs, _, hitem, fuel + 1, hf, rest => by
    rw [show printSep pr (b :: b2 :: bs) ++ closec :: rest
        = pr b ++ (',' :: (printSep pr (b2 :: bs) ++ closec :: rest)) from by
      rw [show printSep pr (b :: b2 :: bs)
          = pr b ++ ',' :: printSep pr (b2 :: bs) from rfl]
      simp]
    rw [parseLoop, hitem b (List.mem_cons_self b _) _]
    have ih2 := parseLoop_print closec parseItem pr hcl (b2 :: bs) (by simp)
      (fun q hq rest2 => hitem q (List.mem_cons_of_mem _ hq) rest2) fuel
      (by simpa using Nat.le_of_succ_le_succ hf) rest
    simp only [Option.bind]
    simp [ih2]

theorem parseDelim_cons {β : Type} (openc closec : Char)
    (parseItem : List Char → Option (β × List Char)) (fuel : Nat)
    (c : Char) (rest : List Char) :
    parseDelim openc closec parseItem fuel (c :: rest) =
      (if c = openc then
        match rest with
        | [] => none
        | c2 :: rest2 =>
          if c2 = closec then some ([], rest2)
          else parseLoop closec parseItem fuel (c2 :: rest2)
      else none) := by
  rw [parseDelim.eq_def]

theorem parseDelim_print {β : Type} (openc closec : Char)
    (parseItem : List Char → Option (β × List Char)) (pr : β → List Char)
    (hcl : ¬ closec = ',')
    (hhead : ∀ b, ∃ c cs, pr b = c :: cs ∧ ¬ c = closec)
    (xs : List β)
    (hitem : ∀ b ∈ xs, ∀ rest, parseItem (pr b ++ rest) = some (b, rest))
    (fuel : Nat) (hf : xs.length ≤ fuel) (rest : List Char) :
    parseDelim openc closec parseItem fuel (printDelim openc closec pr xs ++ rest)
      = some (xs, rest) := by
  cases xs with
  | nil =>
    rw [show printDelim openc closec pr [] ++ rest
        = openc :: closec :: rest from rfl]
    rw [parseDelim_cons, if_pos rfl]
    simp
  | cons x xs =>
    obtain ⟨c0, cs0, hpr, hc0⟩ := hhead x
    obtain ⟨t, ht⟩ : ∃ t, printSep pr (x :: xs) = pr x ++ t := by
      cases xs with
      | nil => exact ⟨[], by simp [printSep]⟩
      | cons x2 xs2 =>
        exact ⟨',' :: printSep pr (x2 :: xs2), rfl⟩
    have hloop := parseLoop_print closec parseItem pr hcl (x :: xs) (by simp)
      hitem fuel hf rest
    have hbody : printDelim openc closec pr (x :: xs) ++ rest
        = openc :: (printSep pr (x :: xs) ++ closec :: rest) := by
      rw [show printDelim openc closec pr (x :: xs)
          = openc :: (printSep pr (x :: xs) ++ [closec]) from rfl]
      simp
    have hshape : printSep pr (x :: xs) ++ closec :: rest
        = c0 :: (cs0 ++ t ++ closec :: rest) := by
      rw [ht, hpr]
      simp
    rw [hbody, parseDelim_cons, if_pos rfl, hshape]
    simp only [if_neg hc0]
    rw [← hshape, hloop]

/-- Modelled from the spec: the JSON text of one availability value. -/
def printAvail : Option Availability → List Char
  | some .available => printString "available".data
  | some .maybe => printString "maybe".data
  | some .unavailable => printString "unavailable".data
  | none => ['n', 'u', 'l', 'l']

def parseAvail : List Char → Option (Option Availability × List Char)
  | [] => none
  | c :: rest =>
    if c = 'n' then (expectLit ['u', 'l', 'l'] rest).map (fun r => (none, r))
    else
      (parseString (c :: rest)).bind fun p =>
        if p.1 = "available".data then some (some .available, p.2)
        else if p.1 = "maybe".data then some (some .maybe, p.2)
        else if p.1 = "unavailable".data then some (some .unavailable, p.2)
        else none

/-- Organizer contact: a JSON string or `null`. -/
def printOrgEmail : Option String → List Char
  | some s => printString s.data
  | none => ['n', 'u', 'l', 'l']

def parseOrgEmail : List Char → Option (Option String × List Char)
  | [] => none
  | c :: rest =>
    if c = 'n' then (expectLit ['u', 'l', 'l'] rest).map (fun r => (none, r))
    else (parseString (c :: rest)).map (fun p => (some (String.mk p.1), p.2))

/-- Fixed JSON tokens of the snapshot object, shared by printer and parser. -/
def litIdField : List Char := ['\x7b'] ++ printString "id".data ++ [':']

def litDatetime : List Char := [','] ++ printString "datetime".data ++ [':']

def litName : List Char := [','] ++ printString "name".data ++ [':']

def litComment : List Char := [','] ++ printString "comment".data ++ [':']

def litResponses : List Char := [','] ++ printString "responses".data ++ [':']

def litCreatedAt : List Char := [','] ++ printString "createdAt".data ++ [':']

def litTitle : List Char := [','] ++ printString "title".data ++ [':']

def litMemo : List Char := [','] ++ printString "memo".data ++ [':']

def litOrgEmail : List Char := [','] ++ printString "organizerEmail".data ++ [':']

def litDateCands : List Char := [','] ++ printString "dateCandidates".data ++ [':']

def litParticipants : List Char := [','] ++ printString "participants".data ++ [':']

/-- The JSON object of one date candidate. -/
def printCandidate (dc : DateCandidate) : List Char :=
  litIdField ++ printString dc.id.data
    ++ litDatetime ++ printString dc.datetime.data ++ ['\x7d']

def parseCandidate (l : List Char) : Option (DateCandidate × List Char) :=
  (expectLit litIdField l).bind fun l1 =>
  (parseString l1).bind fun p1 =>
  (expectLit litDatetime p1.2).bind fun l2 =>
  (parseString l2).bind fun p2 =>
  (expectLit ['\x7d'] p2.2).map fun l3 =>
  ({ id := String.mk p1.1, datetime := String.mk p2.1 }, l3)

/-- One entry of the responses object: `"candidateId":availability`. -/
def printRespEntry (kv : String × Option Availability) : List Char :=
  printString kv.1.data ++ [':'] ++ printAvail kv.2

def parseRespEntry (l : List Char) :
    Option ((String × Option Availability) × List Char) :=
  (parseString l).bind fun p =>
  (expectLit [':'] p.2).bind fun l2 =>
  (parseAvail l2).map fun q => ((String.mk p.1, q.1), q.2)

/-- The JSON object of one participant response. -/
def printParticipant (p : ParticipantResponse) : List Char :=
  litIdField ++ printString p.id.data
    ++ litName ++ printString p.name.data
    ++ litComment ++ printString p.comment.data
    ++ litResponses ++ printDelim '\x7b' '\x7d' printRespEntry p.responses
    ++ litCreatedAt ++ printString p.createdAt.data ++ ['\x7d']

def parseParticipant (fuel : Nat) (l : List Char) :
    Option (ParticipantResponse × List Char) :=
  (expectLit litIdField l).bind fun l1 =>
  (parseString l1).bind fun pId =>
  (expectLit litName pId.2).bind fun l2 =>
  (parseString l2).bind fun pName =>
  (expectLit litComment pName.2).bind fun l3 =>
  (parseString l3).bind fun pComment =>
  (expectLit litResponses pComment.2).bind fun l4 =>
  (parseDelim '\x7b' '\x7d' parseRespEntry fuel l4).bind fun pResp =>
  (expectLit litCreatedAt pResp.2).bind fun l5 =>
  (parseString l5).bind fun pCreated =>
  (expectLit ['\x7d'] pCreated.2).map fun l6 =>
  ({ id := String.mk pId.1, name := String.mk pName.1,
     comment := String.mk pComment.1, responses := pResp.1,
     createdAt := String.mk pCreated.1 }, l6)

/-- Modelled from the spec: the JSON text of the snapshot — identifier,
title, memo, organizer contact, date candidates, participants, creation
time. -/
def printEvent (ev : ScheduleEvent) : List Char :=
  litIdField ++ printString ev.id.data
    ++ litTitle ++ printString ev.title.data
    ++ litMemo ++ printString ev.memo.data
    ++ litOrgEmail ++ printOrgEmail ev.organizerEmail
    ++ litDateCands ++ printDelim '[' ']' printCandidate ev.dateCandidates
    ++ litParticipants ++ printDelim '[' ']' printParticipant ev.participants
    ++ litCreatedAt ++ printString ev.createdAt.data ++ ['\x7d']

def parseEvent (fuel : Nat) (l : List Char) : Option (ScheduleEvent × List Char) :=
  (expectLit litIdField l).bind fun l1 =>
  (parseString l1).bind fun pId =>
  (expectLit litTitle pId.2).bind fun l2 =>
  (parseString l2).bind fun pTitle =>
  (expectLit litMemo pTitle.2).bind fun l3 =>
  (parseString l3).bind fun pMemo =>
  (expectLit litOrgEmail pMemo.2).bind fun l4 =>
  (parseOrgEmail l4).bind fun pOrg =>
  (expectLit litDateCands pOrg.2).bind fun l5 =>
  (parseDelim '[' ']' parseCandidate fuel l5).bind fun pCands =>
  (expectLit litParticipants pCands.2).bind fun l6 =>
  (parseDelim '[' ']' (parseParticipant fuel) fuel l6).bind fun pParts =>
  (expectLit litCreatedAt pParts.2).bind fun l7 =>
  (parseString l7).bind fun pCreated =>
  (expectLit ['\x7d'] pCreated.2).map fun l8 =>
  ({ id := String.mk pId.1, title := String.mk pTitle.1,
     memo := String.mk pMemo.1, organizerEmail := pOrg.1,
     dateCandidates := pCands.1, participants := pParts.1,
     createdAt := String.mk pCreated.1 }, l8)

/-- Modelled from the spec: the full snapshot codec — JSON text, UTF-8
bytes, URL-safe base64 characters. -/
def encodeSnapshot (ev : ScheduleEvent) : List Char :=
  base64Encode (utf8Encode (printEvent ev))

/-- Modelled from the spec: the inverse decode; every stage yields `none` —
"no event" — on malformed input instead of raising, and trailing garbage
after the JSON object is rejected. -/
def decodeSnapshot (s : List Char) : Option ScheduleEvent :=
  (base64Decode s).bind fun bytes =>
  (utf8Decode bytes).bind fun cs =>
  (parseEvent (cs.length + 1) cs).bind fun p =>
  if p.2 = [] then some p.1 else none

theorem parseAvail_print (a : Option Availability) (rest : List Char) :
    parseAvail (printAvail a ++ rest) = some (a, rest) := by
  cases a with
  | none =>
    rw [show printAvail none ++ rest = 'n' :: ('u' :: 'l' :: 'l' :: rest) from rfl,
      parseAvail.eq_def]
    have he := expectLit_append ['u', 'l', 'l'] rest
    simp only [if_pos rfl]
    rw [show ('u' :: 'l' :: 'l' :: rest : List Char) = ['u', 'l', 'l'] ++ rest from rfl,
      he]
    rfl
  | some av =>
    have hs : ∀ w : String, printString w.data ++ rest
        = '"' :: ((printStringBody w.data ++ ['"']) ++ rest) := by
      intro w
      simp [printString]
    have hq : ¬ ('"' : Char) = 'n' := by decide
    have hps : ∀ w : String,
        parseString ('"' :: ((printStringBody w.data ++ ['"']) ++ rest))
          = some (w.data, rest) := by
      intro w
      rw [← hs, parseString_print]
    cases av with
    | available =>
      rw [show printAvail (some .available) = printString "available".data from rfl,
        hs, parseAvail.eq_def]
      simp only [if_neg hq, hps]
      simp
    | maybe =>
      rw [show printAvail (some .maybe) = printString "maybe".data from rfl,
        hs, parseAvail.eq_def]
      simp only [if_neg hq, hps]
      simp
    | unavailable =>
      rw [show printAvail (some .unavailable) = printString "unavailable".data from rfl,
        hs, parseAvail.eq_def]
      simp only [if_neg hq, hps]
      simp

theorem parseOrgEmail_print (o : Option String) (rest : List Char) :
    parseOrgEmail (printOrgEmail o ++ rest) = some (o, rest) := by
  cases o with
  | none =>
    rw [show printOrgEmail none ++ rest = 'n' :: ('u' :: 'l' :: 'l' :: rest) from rfl,
      parseOrgEmail.eq_def]
    have he := expectLit_append ['u', 'l', 'l'] rest
    simp only [if_pos rfl]
    rw [show ('u' :: 'l' :: 'l' :: rest : List Char) = ['u', 'l', 'l'] ++ rest from rfl,
      he]
    rfl
  | some w =>
    have hq : ¬ ('"' : Char) = 'n' := by decide
    rw [show printOrgEmail (some w) ++ rest
        = '"' :: ((printStringBody w.data ++ ['"']) ++ rest) from by
      simp [printOrgEmail, printString], parseOrgEmail.eq_def]
    simp only [if_neg hq]
    rw [show ('"' :: ((printStringBody w.data ++ ['"']) ++ rest) : List Char)
        = printString w.data ++ rest from by simp [printString],
      parseString_print]
    rfl

theorem parseCandidate_print (dc : DateCandidate) (rest : List Char) :
    parseCandidate (printCandidate dc ++ rest) = some (dc, rest) := by
  rw [show printCandidate dc ++ rest
      = litIdField ++ (printString dc.id.data ++ (litDatetime
        ++ (printString dc.datetime.data ++ (['\x7d'] ++ rest)))) from by
    simp [printCandidate, List.append_assoc]]
  rw [parseCandidate, expectLit_append]
  simp only [Option.bind]
  rw [parseString_print]
  simp only [Option.bind]
  rw [expectLit_append]
  simp only [Option.bind]
  rw [parseString_print]
  simp only [Option.bind]
  rw [expectLit_append]
  rfl

theorem parseRespEntry_print (kv : String × Option Availability) (rest : List Char) :
    parseRespEntry (printRespEntry kv ++ rest) = some (kv, rest) := by
  rw [show printRespEntry kv ++ rest
      = printString kv.1.data ++ ([':'] ++ (printAvail kv.2 ++ rest)) from by
    simp [printRespEntry, List.append_assoc]]
  rw [parseRespEntry, parseString_print]
  simp only [Option.bind]
  rw [expectLit_append]
  simp only [Option.bind]
  rw [parseAvail_print]
  rfl

theorem printRespEntry_head (kv : String × Option Availability) :
    ∃ c cs, printRespEntry kv = c :: cs ∧ ¬ c = '\x7d' := by
  refine ⟨'"', (printStringBody kv.1.data ++ ['"']) ++ ([':'] ++ printAvail kv.2),
    ?_, by decide⟩
  simp [printRespEntry, printString, List.append_assoc]

theorem parseParticipant_print (p : ParticipantResponse) (fuel : Nat)
    (hf : p.responses.length ≤ fuel) (rest : List Char) :
    parseParticipant fuel (printParticipant p ++ rest) = some (p, rest) := by
  rw [show printParticipant p ++ rest
      = litIdField ++ (printString p.id.data ++ (litName ++ (printString p.name.data
        ++ (litComment ++ (printString p.comment.data
        ++ (litResponses ++ (printDelim '\x7b' '\x7d' printRespEntry p.responses
        ++ (litCreatedAt ++ (printString p.createdAt.data
          ++ (['\x7d'] ++ rest)))))))))) from by
    simp [printParticipant, List.append_assoc]]
  rw [parseParticipant, expectLit_append]
  simp only [Option.bind]
  rw [parseString_print]
  simp only [Option.bind]
  rw [expectLit_append]
  simp only [Option.bind]
  rw [parseString_print]
  simp only [Option.bind]
  rw [expectLit_append]
  simp only [Option.bind]
  rw [parseString_print]
  simp only [Option.bind]
  rw [expectLit_append]
  simp only [Option.bind]
  rw [parseDelim_print '\x7b' '\x7d' parseRespEntry printRespEntry (by decide)
    printRespEntry_head p.responses (fun kv _ r => parseRespEntry_print kv r)
    fuel hf]
  simp only [Option.bind]
  rw [expectLit_append]
  simp only [Option.bind]
  rw [parseString_print]
  simp only [Option.bind]
  rw [expectLit_append]
  rfl

theorem printCandidate_head (dc : DateCandidate) :
    ∃ c cs, printCandidate dc = c :: cs ∧ ¬ c = ']' := by
  refine ⟨'\x7b', (printString "id".data ++ [':']) ++ (printString dc.id.data
    ++ (litDatetime ++ (printString dc.datetime.data ++ ['\x7d']))), ?_, by decide⟩
  simp [printCandidate, litIdField, List.append_assoc]

theorem printParticipant_head (p : ParticipantResponse) :
    ∃ c cs, printParticipant p = c :: cs ∧ ¬ c = ']' := by
  refine ⟨'\x7b', (printString "id".data ++ [':']) ++ (printString p.id.data
    ++ (litName ++ (printString p.name.data ++ (litComment
    ++ (printString p.comment.data ++ (litResponses
    ++ (printDelim '\x7b' '\x7d' printRespEntry p.responses ++ (litCreatedAt
    ++ (printString p.createdAt.data ++ ['\x7d']))))))))), ?_, by decide⟩
  simp [printParticipant, litIdField, List.append_assoc]

theorem parseEvent_print (ev : ScheduleEvent) (fuel : Nat)
    (hfc : ev.dateCandidates.length ≤ fuel)
    (hfp : ev.participants.length ≤ fuel)
    (hfr : ∀ p ∈ ev.participants, p.responses.length ≤ fuel)
    (rest : List Char) :
    parseEvent fuel (printEvent ev ++ rest) = some (ev, rest) := by
  rw [show printEvent ev ++ rest
      = litIdField ++ (printString ev.id.data ++ (litTitle
        ++ (printString ev.title.data ++ (litMemo ++ (printString ev.memo.data
        ++ (litOrgEmail ++ (printOrgEmail ev.organizerEmail
        ++ (litDateCands ++ (printDelim '[' ']' printCandidate ev.dateCandidates
        ++ (litParticipants ++ (printDelim '[' ']' printParticipant ev.participants
        ++ (litCreatedAt ++ (printString ev.createdAt.data
          ++ (['\x7d'] ++ rest)))))))))))))) from by
    simp [printEvent, List.append_assoc]]
  rw [parseEvent, expectLit_append]
  simp only [Option.bind]
  rw [parseString_print]
  simp only [Option.bind]
  rw [expectLit_append]
  simp only [Option.bind]
  rw [parseString_print]
  simp only [Option.bind]
  rw [expectLit_append]
  simp only [Option.bind]
  rw [parseString_print]
  simp only [Option.bind]
  rw [expectLit_append]
  simp only [Option.bind]
  rw [parseOrgEmail_print]
  simp only [Option.bind]
  rw [expectLit_append]
  simp only [Option.bind]
  rw [parseDelim_print '[' ']' parseCandidate printCandidate (by decide)
    printCandidate_head ev.dateCandidates
    (fun dc _ r => parseCandidate_print dc r) fuel hfc]
  simp only [Option.bind]
  rw [expectLit_append]
  simp only [Option.bind]
  rw [parseDelim_print '[' ']' (parseParticipant fuel) printParticipant (by decide)
    printParticipant_head ev.participants
    (fun p hp r => parseParticipant_print p fuel (hfr p hp) r) fuel hfp]
  simp only [Option.bind]
  rw [expectLit_append]
  simp only [Option.bind]
  rw [parseString_print]
  simp only [Option.bind]
  rw [expectLit_append]
  rfl

theorem printSep_length {β : Type} (pr : β → List Char)
    (h : ∀ b, 1 ≤ (pr b).length) :
    ∀ xs : List β, xs.length ≤ (printSep pr xs).length
  | [] => by simp [printSep]
  | [b] => by
    rw [show printSep pr [b] = pr b from rfl]
    simpa using h b
  | b :: b2 :: bs => by
    rw [show printSep pr (b :: b2 :: bs)
        = pr b ++ ',' :: printSep pr (b2 :: bs) from rfl]
    have ih := printSep_length pr h (b2 :: bs)
    have hb := h b
    simp only [List.length_cons] at ih ⊢
    simp only [List.length_append, List.length_cons]
    omega

theorem printDelim_length {β : Type} (o c : Char) (pr : β → List Char)
    (h : ∀ b, 1 ≤ (pr b).length) (xs : List β) :
    xs.length ≤ (printDelim o c pr xs).length := by
  cases xs with
  | nil => simp [printDelim]
  | cons x xs2 =>
    rw [show printDelim o c pr (x :: xs2)
        = o :: (printSep pr (x :: xs2) ++ [c]) from rfl]
    have hsep := printSep_length pr h (x :: xs2)
    simp only [List.length_cons] at hsep ⊢
    simp only [List.length_append, List.length_cons]
    omega

theorem printSep_mem_length {β : Type} (pr : β → List Char) :
    ∀ (xs : List β), ∀ b ∈ xs, (pr b).length ≤ (printSep pr xs).length
  | [], b, hb => absurd hb (List.not_mem_nil b)
  | [x], b, hb => by
    rcases List.mem_singleton.mp hb with rfl
    rw [show printSep pr [b] = pr b from rfl]
  | x :: x2 :: xs, b, hb => by
    rw [show printSep pr (x :: x2 :: xs)
        = pr x ++ ',' :: printSep pr (x2 :: xs) from rfl]
    rcases List.mem_cons.mp hb with rfl | hb2
    · simp only [List.length_append, List.length_cons]
      omega
    · have := printSep_mem_length pr (x2 :: xs) b hb2
      simp only [List.length_append, List.length_cons]
      omega

theorem printRespEntry_length (kv : String × Option Availability) :
    1 ≤ (printRespEntry kv).length := by
  obtain ⟨c, cs, hc, _⟩ := printRespEntry_head kv
  rw [hc]
  simp

theorem printCandidate_length (dc : DateCandidate) :
    1 ≤ (printCandidate dc).length := by
  obtain ⟨c, cs, hc, _⟩ := printCandidate_head dc
  rw [hc]
  simp

theorem printParticipant_length (p : ParticipantResponse) :
    1 ≤ (printParticipant p).length := by
  obtain ⟨c, cs, hc, _⟩ := printParticipant_head p
  rw [hc]
  simp

theorem printParticipant_resp_le (p : ParticipantResponse) :
    p.responses.length ≤ (printParticipant p).length := by
  have h1 := printDelim_length '\x7b' '\x7d' printRespEntry
    printRespEntry_length p.responses
  rw [printParticipant]
  simp only [List.length_append]
  omega

theorem printEvent_cands_le (ev : ScheduleEvent) :
    ev.dateCandidates.length ≤ (printEvent ev).length := by
  have h1 := printDelim_length '[' ']' printCandidate
    printCandidate_length ev.dateCandidates
  rw [printEvent]
  simp only [List.length_append]
  omega

theorem printEvent_parts_le (ev : ScheduleEvent) :
    ev.participants.length ≤ (printEvent ev).length := by
  have h1 := printDelim_length '[' ']' printParticipant
    printParticipant_length ev.participants
  rw [printEvent]
  simp only [List.length_append]
  omega

theorem printEvent_resp_le (ev : ScheduleEvent) (p : ParticipantResponse)
    (hp : p ∈ ev.participants) :
    p.responses.length ≤ (printEvent ev).length := by
  have h1 := printParticipant_resp_le p
  have h2 := printSep_mem_length printParticipant ev.participants p hp
  have h3 : (printSep printParticipant ev.participants).length
      ≤ (printDelim '[' ']' printParticipant ev.participants).length := by
    cases hc : ev.participants with
    | nil =>
      rw [hc] at hp
      cases hp
    | cons x xs =>
      rw [show printDelim '[' ']' printParticipant (x :: xs)
          = '[' :: (printSep printParticipant (x :: xs) ++ [']']) from rfl]
      simp only [List.length_cons, List.length_append]
      omega
  have h4 : (printDelim '[' ']' printParticipant ev.participants).length
      ≤ (printEvent ev).length := by
    rw [printEvent]
    simp only [List.length_append]
    omega
  omega

theorem decodeSnapshot_encode (ev : ScheduleEvent) :
    decodeSnapshot (encodeSnapshot ev) = some ev := by
  unfold decodeSnapshot encodeSnapshot
  rw [base64_roundtrip _ (utf8Encode_lt _)]
  simp only [Option.bind]
  rw [utf8_roundtrip]
  simp only [Option.bind]
  have hp := parseEvent_print ev ((printEvent ev).length + 1)
    (Nat.le_succ_of_le (printEvent_cands_le ev))
    (Nat.le_succ_of_le (printEvent_parts_le ev))
    (fun p hp => Nat.le_succ_of_le (printEvent_resp_le ev p hp)) []
  rw [List.append_nil] at hp
  rw [hp]
  simp only [Option.bind]
  simp

/-- C8: the self-contained snapshot codec round-trips — encoding an event
(identifier, title, memo, organizer contact, date candidates, participants
with their response maps and comments including arbitrary non-ASCII text,
creation time) to URL-fragment-safe base64 of UTF-8 JSON and decoding it
back reconstructs the event exactly; and decoding is total, producing "no
event" (`none`) rather than raising on any input that is not a well-formed
snapshot. -/
theorem C8_snapshot_codec :
    (∀ ev : ScheduleEvent, decodeSnapshot (encodeSnapshot ev) = some ev)
    ∧ (∀ s : List Char, decodeSnapshot s = none ∨ ∃ ev, decodeSnapshot s = some ev) := by
  constructor
  · exact decodeSnapshot_encode
  · intro s
    cases h : decodeSnapshot s with
    | none => left; rfl
    | some ev => right; exact ⟨ev, rfl⟩
